import Mathlib

/-!
Shallow embedding of the yaml-merge module of tcsetup (yaml-merge.js).

JavaScript strings are modelled as lists of characters (`Str`), JavaScript
values as the tagged union `JSValue` (numbers as `Int`: every number this
module produces from its documents is a decimal integer literal), and the
module's functions as executable Lean functions.  Functions that traverse a
value are structurally recursive in that value; the line parser, whose JS
original advances an index through an array of lines, carries an explicit
fuel argument and is invoked with fuel that dominates the number of loop
iterations (each iteration advances the index, so `lines.length + 1`
always suffices).
-/

abbrev Str := List Char

/-- Whitespace test used by the model of JS `trim`/`trimStart` (ASCII subset;
the documents handled by the module contain no exotic whitespace). -/
def isSpaceChar (c : Char) : Bool :=
  c = ' ' || c = '\t' || c = '\n' || c = '\r'

/-- Model of JS `String.prototype.trimStart`. -/
def jsTrimStart (s : Str) : Str := s.dropWhile isSpaceChar

/-- Model of JS `String.prototype.trimEnd`. -/
def jsTrimEnd (s : Str) : Str := (s.reverse.dropWhile isSpaceChar).reverse

/-- Model of JS `String.prototype.trim`. -/
def jsTrim (s : Str) : Str := jsTrimEnd (jsTrimStart s)

/-- Model of JS `String.prototype.split` with a one-character separator:
splits at every occurrence, keeping empty fragments, and always yields at
least one fragment. -/
def jsSplit (sep : Char) : Str → List Str
  | [] => [[]]
  | c :: rest =>
    match jsSplit sep rest with
    | [] => [[]]
    | s :: ss => if c = sep then [] :: s :: ss else (c :: s) :: ss

/-- Model of `Array.prototype.join('\n')` on a list of fragments. -/
def joinLines : List Str → Str
  | [] => []
  | [l] => l
  | l :: ls => l ++ '\n' :: joinLines ls

/-- Model of `Array.prototype.join` with a one-character separator. -/
def joinWith (sep : Char) : List Str → Str
  | [] => []
  | [l] => l
  | l :: ls => l ++ sep :: joinWith sep ls

/-- Model of `s.startsWith(p)` (here: does `pre` start `s`). -/
def strBegins (pre s : Str) : Bool := pre.isPrefixOf s

/-- `line.length - line.trimStart().length`: the leading-whitespace width the
parser uses as the indentation of a line. -/
def indentOf (line : Str) : Nat := line.length - (jsTrimStart line).length

/-- Digits of a natural number, fuelled (one digit is produced per fuel
unit; `n + 1` fuel suffices since `n / 10 < n` for `n ≥ 10`). -/
def natToStrF : Nat → Nat → Str
  | 0, _ => []
  | fuel + 1, n =>
    if n < 10 then [Char.ofNat ('0'.toNat + n)]
    else natToStrF fuel (n / 10) ++ [Char.ofNat ('0'.toNat + n % 10)]

/-- Model of JS `String(n)` for a natural number. -/
def natToStr (n : Nat) : Str := natToStrF (n + 1) n

/-- Model of JS `String(n)` for an integer (the module only ever produces
integer numbers). -/
def intToStr (n : Int) : Str :=
  if n < 0 then '-' :: natToStr n.natAbs else natToStr n.natAbs

/-- The JS value universe this module manipulates: `null`, booleans,
numbers, strings, arrays, and plain objects (insertion-ordered key/value
lists with unique keys, as JS objects behave for string keys). -/
inductive JSValue : Type where
  | null : JSValue
  | bool : Bool → JSValue
  | num : Int → JSValue
  | str : Str → JSValue
  | arr : List JSValue → JSValue
  | obj : List (Str × JSValue) → JSValue

mutual

def jsDecEq : (a b : JSValue) → Decidable (a = b)
  | .null, .null => isTrue rfl
  | .bool x, .bool y =>
    match decEq x y with
    | isTrue h => isTrue (h ▸ rfl)
    | isFalse h => isFalse (fun hh => h (JSValue.noConfusion hh id))
  | .num x, .num y =>
    match decEq x y with
    | isTrue h => isTrue (h ▸ rfl)
    | isFalse h => isFalse (fun hh => h (JSValue.noConfusion hh id))
  | .str x, .str y =>
    match decEq x y with
    | isTrue h => isTrue (h ▸ rfl)
    | isFalse h => isFalse (fun hh => h (JSValue.noConfusion hh id))
  | .arr xs, .arr ys =>
    match jsDecEqList xs ys with
    | isTrue h => isTrue (h ▸ rfl)
    | isFalse h => isFalse (fun hh => h (JSValue.noConfusion hh id))
  | .obj xs, .obj ys =>
    match jsDecEqEntries xs ys with
    | isTrue h => isTrue (h ▸ rfl)
    | isFalse h => isFalse (fun hh => h (JSValue.noConfusion hh id))
  | .null, .bool _ => isFalse (fun h => JSValue.noConfusion h)
  | .null, .num _ => isFalse (fun h => JSValue.noConfusion h)
  | .null, .str _ => isFalse (fun h => JSValue.noConfusion h)
  | .null, .arr _ => isFalse (fun h => JSValue.noConfusion h)
  | .null, .obj _ => isFalse (fun h => JSValue.noConfusion h)
  | .bool _, .null => isFalse (fun h => JSValue.noConfusion h)
  | .bool _, .num _ => isFalse (fun h => JSValue.noConfusion h)
  | .bool _, .str _ => isFalse (fun h => JSValue.noConfusion h)
  | .bool _, .arr _ => isFalse (fun h => JSValue.noConfusion h)
  | .bool _, .obj _ => isFalse (fun h => JSValue.noConfusion h)
  | .num _, .null => isFalse (fun h => JSValue.noConfusion h)
  | .num _, .bool _ => isFalse (fun h => JSValue.noConfusion h)
  | .num _, .str _ => isFalse (fun h => JSValue.noConfusion h)
  | .num _, .arr _ => isFalse (fun h => JSValue.noConfusion h)
  | .num _, .obj _ => isFalse (fun h => JSValue.noConfusion h)
  | .str _, .null => isFalse (fun h => JSValue.noConfusion h)
  | .str _, .bool _ => isFalse (fun h => JSValue.noConfusion h)
  | .str _, .num _ => isFalse (fun h => JSValue.noConfusion h)
  | .str _, .arr _ => isFalse (fun h => JSValue.noConfusion h)
  | .str _, .obj _ => isFalse (fun h => JSValue.noConfusion h)
  | .arr _, .null => isFalse (fun h => JSValue.noConfusion h)
  | .arr _, .bool _ => isFalse (fun h => JSValue.noConfusion h)
  | .arr _, .num _ => isFalse (fun h => JSValue.noConfusion h)
  | .arr _, .str _ => isFalse (fun h => JSValue.noConfusion h)
  | .arr _, .obj _ => isFalse (fun h => JSValue.noConfusion h)
  | .obj _, .null => isFalse (fun h => JSValue.noConfusion h)
  | .obj _, .bool _ => isFalse (fun h => JSValue.noConfusion h)
  | .obj _, .num _ => isFalse (fun h => JSValue.noConfusion h)
  | .obj _, .str _ => isFalse (fun h => JSValue.noConfusion h)
  | .obj _, .arr _ => isFalse (fun h => JSValue.noConfusion h)

def jsDecEqList : (xs ys : List JSValue) → Decidable (xs = ys)
  | [], [] => isTrue rfl
  | [], _ :: _ => isFalse (fun h => List.noConfusion h)
  | _ :: _, [] => isFalse (fun h => List.noConfusion h)
  | x :: xs, y :: ys =>
    match jsDecEq x y, jsDecEqList xs ys with
    | isTrue h1, isTrue h2 => isTrue (h1 ▸ h2 ▸ rfl)
    | isFalse h1, _ => isFalse (fun hh => h1 (List.noConfusion hh (fun a _ => a)))
    | _, isFalse h2 => isFalse (fun hh => h2 (List.noConfusion hh (fun _ b => b)))

def jsDecEqEntries : (xs ys : List (Str × JSValue)) → Decidable (xs = ys)
  | [], [] => isTrue rfl
  | [], _ :: _ => isFalse (fun h => List.noConfusion h)
  | _ :: _, [] => isFalse (fun h => List.noConfusion h)
  | (k1, v1) :: xs, (k2, v2) :: ys =>
    match decEq k1 k2, jsDecEq v1 v2, jsDecEqEntries xs ys with
    | isTrue hk, isTrue hv, isTrue ht => isTrue (by rw [hk, hv, ht])
    | isFalse hk, _, _ =>
      isFalse (fun hh => hk (congrArg (fun l => (l.headD (k1, v1)).1) hh))
    | _, isFalse hv, _ =>
      isFalse (fun hh => hv (congrArg (fun l => (l.headD (k1, v1)).2) hh))
    | _, _, isFalse ht =>
      isFalse (fun hh => ht (congrArg List.tail hh))

end

instance : DecidableEq JSValue := jsDecEq

/-- Property read `o[k]` on a plain object: first entry with the key. -/
def jsLookup : List (Str × JSValue) → Str → Option JSValue
  | [], _ => none
  | (k', v) :: rest, k => if k' = k then some v else jsLookup rest k

/-- Property write `o[k] = v` on a plain object: overwrite in place if the
key exists (JS objects keep the original insertion position), otherwise
append. -/
def setKey : List (Str × JSValue) → Str → JSValue → List (Str × JSValue)
  | [], k, v => [(k, v)]
  | (k', v') :: rest, k, v =>
    if k' = k then (k', v) :: rest else (k', v') :: setKey rest k v

/-- Index-keyed entries of an array, as `Object.keys`/spread see them. -/
def arrIndexEntriesFrom : Nat → List JSValue → List (Str × JSValue)
  | _, [] => []
  | i, v :: rest => (natToStr i, v) :: arrIndexEntriesFrom (i + 1) rest

/-- Property read `a[k]` on an array value, as `deepEqual` can perform it
when one side is an array and the other an object: index properties plus
the `length` property. -/
def arrProp (items : List JSValue) (k : Str) : Option JSValue :=
  if k = ("length").data then some (.num (items.length : Int))
  else jsLookup (arrIndexEntriesFrom 0 items) k

/-- JS truthiness on our value universe (`NaN` cannot arise: numbers are
integers here; arrays and objects are always truthy). -/
def isFalsyJS : JSValue → Bool
  | .null => true
  | .bool b => !b
  | .num n => n == 0
  | .str s => s.isEmpty
  | _ => false

/-- `typeof x === 'object' && !Array.isArray(x)`: satisfied by plain
objects and by `null` (a JS quirk the merge code inherits). -/
def isObjTypeNonArr : JSValue → Bool
  | .null => true
  | .obj _ => true
  | _ => false

/-- `typeof x === 'object' && x !== null && !Array.isArray(x)`. -/
def isStrictObj : JSValue → Bool
  | .obj _ => true
  | _ => false

/-- `Array.isArray`. -/
def isArr : JSValue → Bool
  | .arr _ => true
  | _ => false

/-- Model of JS strict equality `a === b` as it is consulted on the merge
path: primitives compare by value; two container operands reaching that
comparison are always distinct freshly-parsed references, hence unequal. -/
def jsStrictEq : JSValue → JSValue → Bool
  | .null, .null => true
  | .bool a, .bool b => a == b
  | .num a, .num b => a == b
  | .str a, .str b => a == b
  | _, _ => false

mutual

/-- Model of `deepEqual` (yaml-merge.js).  Mixed array/object operands both
have `typeof === 'object'`, so the source compares them with the final
object branch over `Object.keys`; the index-based helpers reproduce that. -/
def deepEqual (a b : JSValue) : Bool :=
  match a, b with
  | .null, .null => true
  | .bool x, .bool y => x == y
  | .num x, .num y => x == y
  | .str x, .str y => x == y
  | .arr xs, .arr ys => xs.length == ys.length && deepEqualList xs ys
  | .arr xs, .obj ys => xs.length == ys.length && deepEqualIdx 0 xs ys
  | .obj xs, .arr ys => xs.length == ys.length && deepEqualEntArr xs ys
  | .obj xs, .obj ys => xs.length == ys.length && deepEqualEnt xs ys
  | _, _ => false
termination_by structural a

/-- `a.every((item, i) => deepEqual(item, b[i]))` after the length check. -/
def deepEqualList (xs ys : List JSValue) : Bool :=
  match xs, ys with
  | [], _ => true
  | _ :: _, [] => true
  | x :: xs', y :: ys' => deepEqual x y && deepEqualList xs' ys'
termination_by structural xs

/-- Array keys (indices) of the left operand against an object's
properties. -/
def deepEqualIdx (i : Nat) (xs : List JSValue) (ys : List (Str × JSValue)) : Bool :=
  match xs with
  | [] => true
  | x :: xs' =>
    (match jsLookup ys (natToStr i) with
     | some w => deepEqual x w
     | none => false) && deepEqualIdx (i + 1) xs' ys
termination_by structural xs

/-- Object keys of the left operand against an array's properties. -/
def deepEqualEntArr (xs : List (Str × JSValue)) (ys : List JSValue) : Bool :=
  match xs with
  | [] => true
  | (k, v) :: rest =>
    (match arrProp ys k with
     | some w => deepEqual v w
     | none => false) && deepEqualEntArr rest ys
termination_by structural xs

/-- `keysA.every((key) => deepEqual(a[key], b[key]))` after the length
check; a key missing from `b` makes its value compare against `undefined`,
which `deepEqual` rejects. -/
def deepEqualEnt (xs ys : List (Str × JSValue)) : Bool :=
  match xs with
  | [] => true
  | (k, v) :: rest =>
    (match jsLookup ys k with
     | some w => deepEqual v w
     | none => false) && deepEqualEnt rest ys
termination_by structural xs

end

/-- One step of the `for (const item of update)` loop of
`deduplicateArrays`: skip the item if a deep-equal one is already in the
accumulated result, otherwise append it and count it (the source pushes it
onto its `dedup` array, whose final length is the returned count). -/
def dedupStep (acc : List JSValue × Nat) (item : JSValue) : List JSValue × Nat :=
  if acc.1.any (fun e => deepEqual item e) then acc
  else (acc.1 ++ [item], acc.2 + 1)

/-- The loop of `deduplicateArrays` on two genuine arrays. -/
def deduplicateArraysList (existing update : List JSValue) : List JSValue × Nat :=
  update.foldl dedupStep (existing, 0)

/-- `if (!Array.isArray(x)) x = []` coercion of `deduplicateArrays`. -/
def toArrList : JSValue → List JSValue
  | .arr items => items
  | _ => []

/-- `deduplicateArrays` (yaml-merge.js): non-array inputs are coerced to
empty arrays; returns the merged array and the `deduped` count. -/
def deduplicateArrays (existing update : JSValue) : List JSValue × Nat :=
  deduplicateArraysList (toArrList existing) (toArrList update)

mutual

/-- Model of `mergeObjects` (yaml-merge.js).  A non-object `existing`
(falsy, primitive, or array) yields `update || {}`; a non-object `update`
yields `existing`; otherwise the entries of `update` are folded into a
copy of `existing`. -/
def mergeObjects : JSValue → JSValue → JSValue
  | existing, update =>
    match existing with
    | .obj es =>
      match update with
      | .obj us => .obj (mergeEntries es us)
      | _ => existing
    | _ => if isFalsyJS update then .obj [] else update

/-- The `for (const [key, value] of Object.entries(update))` loop of
`mergeObjects`, acting on `result = { ...existing }`.  The nested-object
test is `typeof === 'object' && !Array.isArray` on both sides, which `null`
also passes; on the remaining conflicts the existing value is kept. -/
def mergeEntries : List (Str × JSValue) → List (Str × JSValue) → List (Str × JSValue)
  | result, [] => result
  | result, (k, v) :: rest =>
    let r1 :=
      match jsLookup result k with
      | some ev =>
        if isObjTypeNonArr ev && isObjTypeNonArr v then
          setKey result k (mergeObjects ev v)
        else if isArr ev && isArr v then
          setKey result k (.arr (deduplicateArrays ev v).1)
        else result
      | none => setKey result k v
    mergeEntries r1 rest

end

/-- `{ ...x }`: spread into a fresh object, as `mergeObjectsWithChangelog`
starts with.  Arrays and strings contribute index-keyed entries; `null`
and other primitives contribute nothing. -/
def spreadEntries : JSValue → List (Str × JSValue)
  | .obj es => es
  | .arr items => arrIndexEntriesFrom 0 items
  | .str s => arrIndexEntriesFrom 0 (s.map (fun c => JSValue.str [c]))
  | _ => []

/-- `Object.entries(x)`: entries of an object, index-keyed entries of an
array or string, nothing for other primitives (`null` would throw in JS,
but the orchestrator never passes it). -/
def entriesOfVal : JSValue → List (Str × JSValue)
  | .obj es => es
  | .arr items => arrIndexEntriesFrom 0 items
  | .str s => arrIndexEntriesFrom 0 (s.map (fun c => JSValue.str [c]))
  | _ => []

mutual

/-- Node count of a value, used as the fuel bound for the one merge
function whose recursion Lean cannot see as structural. -/
def jsSize : JSValue → Nat
  | .null => 1
  | .bool _ => 1
  | .num _ => 1
  | .str _ => 1
  | .arr items => 1 + jsSizeList items
  | .obj entries => 1 + jsSizeEntries entries

def jsSizeList : List JSValue → Nat
  | [] => 1
  | v :: rest => 1 + jsSize v + jsSizeList rest

def jsSizeEntries : List (Str × JSValue) → Nat
  | [] => 1
  | (_, v) :: rest => 1 + jsSize v + jsSizeEntries rest

end

mutual

/-- Fuelled model of `mergeObjectsWithChangelog` (yaml-merge.js), the merge
the orchestrator `mergeYAML` actually runs.  The changelog records do not
influence the merged data and are not modelled; only the returned value
is.  One unit of fuel is consumed per update entry and per recursive
descent, so any fuel above `jsSize update` reproduces the source. -/
def mergeWCF : Nat → JSValue → JSValue → JSValue
  | 0, existing, _ => existing
  | fuel + 1, existing, update =>
    .obj (mergeWCEntriesF fuel (spreadEntries existing) (entriesOfVal update))

/-- The entry loop of `mergeObjectsWithChangelog`: arrays are deduplicated
first; both-plain-objects (explicitly excluding `null`) recurse; otherwise
`existingValue !== updateValue` triggers replacement by the update value. -/
def mergeWCEntriesF : Nat → List (Str × JSValue) → List (Str × JSValue) → List (Str × JSValue)
  | 0, result, _ => result
  | _ + 1, result, [] => result
  | fuel + 1, result, (k, v) :: rest =>
    let r1 :=
      match jsLookup result k with
      | some ev =>
        if isArr ev && isArr v then
          setKey result k (.arr (deduplicateArrays ev v).1)
        else if isStrictObj ev && isStrictObj v then
          setKey result k (mergeWCF fuel ev v)
        else if jsStrictEq ev v then result
        else setKey result k v
      | none => setKey result k v
    mergeWCEntriesF fuel r1 rest

end

/-- `mergeObjectsWithChangelog` (yaml-merge.js): the recursion of the
source always descends into the update value, so `jsSize update + 1` fuel
is sufficient. -/
def mergeObjectsWithChangelog (existing update : JSValue) : JSValue :=
  mergeWCF (jsSize update + 1) existing update

/-- Nonempty all-digit test, the `/^\d+$/` of the version-string guard. -/
def isDigitStr (s : Str) : Bool := !s.isEmpty && s.all (fun c => c.isDigit)

/-- Numeric value of an all-digit fragment. -/
def digitsToNat (s : Str) : Nat :=
  s.foldl (fun acc c => acc * 10 + (c.toNat - '0'.toNat)) 0

/-- Hexadecimal digit test for the `0x` branch of `Number()`. -/
def isHexDigit (c : Char) : Bool :=
  c.isDigit || ('a' ≤ c && c ≤ 'f') || ('A' ≤ c && c ≤ 'F')

/-- Octal digit test for the `0o` branch of `Number()`. -/
def isOctDigit (c : Char) : Bool := '0' ≤ c && c ≤ '7'

/-- Binary digit test for the `0b` branch of `Number()`. -/
def isBinDigit (c : Char) : Bool := c = '0' || c = '1'

/-- Splits a token at its first `e`/`E`, separating a decimal literal's
mantissa from its exponent part (`none` when no exponent marker occurs). -/
def splitAtExp (s : Str) : Str × Option Str :=
  match s with
  | [] => ([], none)
  | c :: rest =>
    if c = 'e' || c = 'E' then ([], some rest)
    else
      let p := splitAtExp rest
      (c :: p.1, p.2)

/-- The mantissa of an unsigned decimal literal, exponent removed:
`DecimalDigits`, `DecimalDigits . DecimalDigits?`, or `. DecimalDigits`. -/
def mantissaOk (m : Str) : Bool :=
  match jsSplit '.' m with
  | [a] => isDigitStr a
  | [a, b] => (isDigitStr a && (b.isEmpty || isDigitStr b))
      || (a.isEmpty && isDigitStr b)
  | _ => false

/-- An exponent part after the `e`/`E` marker: optional sign, then digits. -/
def expPartOk (ex : Str) : Bool :=
  match ex with
  | '+' :: d => isDigitStr d
  | '-' :: d => isDigitStr d
  | d => isDigitStr d

/-- `StrUnsignedDecimalLiteral` of the `Number()` grammar: `Infinity`, or a
mantissa with an optional exponent part. -/
def strDecimalOk (s : Str) : Bool :=
  if s = ("Infinity").data then true
  else
    match splitAtExp s with
    | (m, none) => mantissaOk m
    | (m, some ex) => mantissaOk m && expPartOk ex

/-- A decimal literal with its optional leading sign. -/
def signedDecOk (s : Str) : Bool :=
  match s with
  | '+' :: rest => strDecimalOk rest
  | '-' :: rest => strDecimalOk rest
  | _ => strDecimalOk s

/-- Model of the test `!isNaN(Number(str))` on an already trimmed string,
following the `StringNumericLiteral` grammar: the empty string is the
Number 0; `0x`/`0X`, `0o`/`0O` and `0b`/`0B` introduce unsigned
non-decimal integer literals; everything else must be a signed decimal
literal (digits with optional dot and exponent, or `Infinity`). -/
def jsNumberAccepts (s : Str) : Bool :=
  match s with
  | [] => true
  | '0' :: c :: rest =>
    if c = 'x' || c = 'X' then !rest.isEmpty && rest.all isHexDigit
    else if c = 'o' || c = 'O' then !rest.isEmpty && rest.all isOctDigit
    else if c = 'b' || c = 'B' then !rest.isEmpty && rest.all isBinDigit
    else signedDecOk s
  | _ => signedDecOk s

/-- Value of a hexadecimal digit (also serves the octal and binary bases,
whose digits are a subset). -/
def hexDigitVal (c : Char) : Nat :=
  if c.isDigit then c.toNat - ('0').toNat
  else if 'a' ≤ c && c ≤ 'f' then c.toNat - ('a').toNat + 10
  else c.toNat - ('A').toNat + 10

/-- Positional value of a digit string in the given base. -/
def digitsToNatBase (base : Nat) (s : Str) : Nat :=
  s.foldl (fun acc c => acc * base + hexDigitVal c) 0

/-- Exact integer value of an unsigned decimal literal: `none` for
`Infinity`, for dotted or malformed mantissas, and for negative exponents
that do not divide out — those `Number()` values are not integers and lie
outside the integer number model (IEEE-754 rounding of literals beyond
double precision is likewise not modelled). -/
def decIntValOpt (s : Str) : Option Int :=
  if s = ("Infinity").data then none
  else
    match splitAtExp s with
    | (m, none) => if isDigitStr m then some (digitsToNat m : Int) else none
    | (m, some ex) =>
      if isDigitStr m then
        match ex with
        | '-' :: d =>
          if isDigitStr d then
            if digitsToNat m % 10 ^ digitsToNat d = 0 then
              some ((digitsToNat m / 10 ^ digitsToNat d : Nat) : Int)
            else none
          else none
        | '+' :: d =>
          if isDigitStr d then
            some ((digitsToNat m * 10 ^ digitsToNat d : Nat) : Int)
          else none
        | d =>
          if isDigitStr d then
            some ((digitsToNat m * 10 ^ digitsToNat d : Nat) : Int)
          else none
      else none

/-- `decIntValOpt` with the optional leading sign. -/
def signedDecIntValOpt (s : Str) : Option Int :=
  match s with
  | '+' :: rest => decIntValOpt rest
  | '-' :: rest => (decIntValOpt rest).map (fun n => -n)
  | _ => decIntValOpt s

/-- Exact integer value of a `Number()` literal: `some n` when the
accepted literal denotes the integer `n` (signed decimal with optional
exponent, unsigned hexadecimal, octal or binary), `none` when `Number`
yields `NaN` or a value outside the integer fragment (`Infinity`,
fractional results of negative exponents). -/
def jsNumberOpt (s : Str) : Option Int :=
  match s with
  | [] => some 0
  | '0' :: c :: rest =>
    if c = 'x' || c = 'X' then
      if !rest.isEmpty && rest.all isHexDigit then
        some (digitsToNatBase 16 rest : Int)
      else none
    else if c = 'o' || c = 'O' then
      if !rest.isEmpty && rest.all isOctDigit then
        some (digitsToNatBase 8 rest : Int)
      else none
    else if c = 'b' || c = 'B' then
      if !rest.isEmpty && rest.all isBinDigit then
        some (digitsToNatBase 2 rest : Int)
      else none
    else signedDecIntValOpt s
  | _ => signedDecIntValOpt s

/-- Model of `parseYAMLValue` (yaml-merge.js): scalar token interpretation.
An empty argument is falsy and yields `null` before the trim; literals,
quoted strings, the two-segment all-digit version guard, and the dot-free
`Number` conversion follow in source order, with a bare string as the
fallback. -/
def parseYAMLValue (s0 : Str) : JSValue :=
  if s0.isEmpty then .null
  else
    let s := jsTrim s0
    if s = ("null").data || s = ("~").data then .null
    else if s = ("true").data then .bool true
    else if s = ("false").data then .bool false
    else if s = ("[]").data then .arr []
    else if s = ("{}").data then .obj []
    else if s.head? = some '"' && s.getLast? = some '"' then
      .str ((s.drop 1).dropLast)
    else if s.head? = some '\'' && s.getLast? = some '\'' then
      .str ((s.drop 1).dropLast)
    else if s.contains '.' && (jsSplit '.' s).length = 2
        && (jsSplit '.' s).all isDigitStr then
      .str s
    else if jsNumberAccepts s && !s.isEmpty && !s.contains '.' then
      -- An accepted dot-free literal whose value is not an exact integer
      -- (a fractional negative exponent, `Infinity`) lies outside the
      -- integer number model and takes the placeholder value 0.
      .num ((jsNumberOpt s).getD 0)
    else .str s

/-- The `{ data, i }` record returned by each `parseYAMLLines` call. -/
structure ParseFrame where
  data : JSValue
  idx : Nat

/-- `lines[i]` (the loop guard guarantees the index is in range). -/
def lineAt (lines : List Str) (i : Nat) : Str := lines.getD i []

/-- `isArray && items.length > 0 ? items : result` and the final index. -/
def finishFrame (result : List (Str × JSValue)) (items : List JSValue)
    (isArray : Bool) (i : Nat) : ParseFrame :=
  ⟨if isArray && !items.isEmpty then .arr items else .obj result, i⟩

/-- `nested.data[k] = v`: the dash-line key/value folded into the nested
array item.  When the nested data is not a plain object (a degenerate
document can make it an array), the JS assignment adds a named property
that no later consumer of the value model observes; it is dropped here. -/
def assignProp (v : JSValue) (k : Str) (w : JSValue) : JSValue :=
  match v with
  | .obj es => .obj (setKey es k w)
  | other => other

/-- `currentArrayItem[key] = v`: `currentArrayItem` aliases the most
recently pushed array item, which is a plain object whenever the parser
consults it (the qualifying flag below tracks exactly that). -/
def updateLastObj (items : List JSValue) (k : Str) (v : JSValue) : List JSValue :=
  match items.getLast? with
  | some (.obj es) => items.dropLast ++ [.obj (setKey es k v)]
  | _ => items

/-- Fuelled model of the `while` loop of `parseYAMLLines` (yaml-merge.js).
State: the line array, the current index, the expected indentation, the
`result` object, the `items` array, the `isArray` flag, and whether
`currentArrayItem` currently holds a qualifying plain object (it is either
`null`, the last pushed object item, or a non-object nested value that
fails the source's `typeof`-object test forever).  Nested parses resume
the loop at the returned index, which the source guarantees to be at least
`i + 1`; `max` makes that explicit so one unit of fuel is consumed per
line index, and `lines.length + 1` fuel reproduces the source. -/
def parseLoopF : Nat → List Str → Nat → Nat → List (Str × JSValue) →
    List JSValue → Bool → Bool → ParseFrame
  | 0, _, i, _, result, items, isArray, _ => finishFrame result items isArray i
  | fuel + 1, lines, i, expectedIndent, result, items, isArray, cur =>
    if i < lines.length then
      let line := lineAt lines i
      let trimmed := jsTrim line
      if trimmed.isEmpty || trimmed.head? = some '#' then
        parseLoopF fuel lines (i + 1) expectedIndent result items isArray cur
      else
        let indent := indentOf line
        if indent < expectedIndent then
          finishFrame result items isArray i
        else if expectedIndent < indent then
          parseLoopF fuel lines (i + 1) expectedIndent result items isArray cur
        else if strBegins (("- ").data) trimmed then
          let itemValue := jsTrim (trimmed.drop 2)
          let nextLine := lineAt lines (i + 1)
          let nextTrimmed := jsTrim nextLine
          let nextIndent := indentOf nextLine
          if i + 1 < lines.length && indent < nextIndent
              && !(nextTrimmed.head? = some '#') && !nextTrimmed.isEmpty
              && nextTrimmed.contains ':' && !(nextTrimmed.head? = some '-') then
            let nested := parseLoopF fuel lines (i + 1) nextIndent [] [] false false
            let itemData :=
              if !itemValue.isEmpty then
                match jsSplit ':' itemValue with
                | [] => nested.data
                | kPart :: vParts =>
                  assignProp nested.data (jsTrim kPart)
                    (parseYAMLValue (jsTrim (joinWith ':' vParts)))
              else nested.data
            parseLoopF fuel lines (max (i + 1) nested.idx) expectedIndent
              result (items ++ [itemData]) true (isStrictObj itemData)
          else
            if !itemValue.isEmpty then
              parseLoopF fuel lines (i + 1) expectedIndent
                result (items ++ [parseYAMLValue itemValue]) true false
            else
              parseLoopF fuel lines (i + 1) expectedIndent result items true cur
        else if trimmed.contains ':' then
          let colonIdx := trimmed.findIdx (fun c => c = ':')
          let key := jsTrim (trimmed.take colonIdx)
          let valueStr := jsTrim (trimmed.drop (colonIdx + 1))
          let nextLine := lineAt lines (i + 1)
          let nextTrimmed := jsTrim nextLine
          let nextIndent := indentOf nextLine
          if cur then
            if valueStr.isEmpty then
              if i + 1 < lines.length && indent < nextIndent
                  && !(nextTrimmed.head? = some '#') && !nextTrimmed.isEmpty then
                let nested := parseLoopF fuel lines (i + 1) nextIndent [] []
                  (nextTrimmed.head? = some '-') false
                parseLoopF fuel lines (max (i + 1) nested.idx) expectedIndent
                  result (updateLastObj items key nested.data) isArray cur
              else
                parseLoopF fuel lines (i + 1) expectedIndent
                  result (updateLastObj items key .null) isArray cur
            else
              parseLoopF fuel lines (i + 1) expectedIndent
                result (updateLastObj items key (parseYAMLValue valueStr)) isArray cur
          else
            if valueStr.isEmpty then
              if i + 1 < lines.length && indent < nextIndent
                  && !(nextTrimmed.head? = some '#') && !nextTrimmed.isEmpty then
                let nested := parseLoopF fuel lines (i + 1) nextIndent [] []
                  (nextTrimmed.head? = some '-') false
                parseLoopF fuel lines (max (i + 1) nested.idx) expectedIndent
                  (setKey result key nested.data) items isArray cur
              else
                parseLoopF fuel lines (i + 1) expectedIndent
                  (setKey result key .null) items isArray cur
            else
              parseLoopF fuel lines (i + 1) expectedIndent
                (setKey result key (parseYAMLValue valueStr)) items isArray cur
        else
          parseLoopF fuel lines (i + 1) expectedIndent result items isArray cur
    else
      finishFrame result items isArray i

/-- `parseYAMLLines(lines, startIdx, expectedIndent, parentIsArray)`. -/
def parseYAMLLinesF (fuel : Nat) (lines : List Str) (startIdx expectedIndent : Nat)
    (parentIsArray : Bool) : ParseFrame :=
  parseLoopF fuel lines startIdx expectedIndent [] [] parentIsArray false

/-- The `{ data, comments, raw, parseError }` result of `parseYAML`
(comments are always `{}` in the source and are not modelled). -/
structure ParsedYAML where
  data : JSValue
  raw : Str
  parseError : Option Str

/-- Model of `parseYAML` (yaml-merge.js): falsy content yields an empty
object; otherwise the content is split into lines and parsed.  Every
function in the `try` body is total, so the `catch` that would set
`parseError` is unreachable and the diagnostic is always `none`. -/
def parseYAML (content : Str) : ParsedYAML :=
  if content.isEmpty then ⟨.obj [], content, none⟩
  else
    let lines := jsSplit '\n' content
    ⟨(parseYAMLLinesF (lines.length + 1) lines 0 0 false).data, content, none⟩

/-- The parsed value of a document text. -/
def parseYAMLStr (content : Str) : JSValue := (parseYAML content).data

/-- The `{ valid, errors }` result of `validateYAML`. -/
structure ValidateRes where
  valid : Bool
  errors : List Str

/-- Model of `validateYAML` (yaml-merge.js): falsy or non-string content is
trivially valid; otherwise the content is parsed inside a `try` and
validity reflects only whether that call threw.  `parseYAML` is total and
catches its own errors, so the result is always valid. -/
def validateYAML (content : Str) : ValidateRes :=
  if content.isEmpty then ⟨true, []⟩
  else
    let _ := parseYAML content
    ⟨true, []⟩

mutual

/-- Model of JS `String(v)` as the serializer's scalar fallback can meet
it on container values: arrays join their elements with commas (`null`
elements become empty), plain objects print as `[object Object]`. -/
def jsToStrVal : JSValue → Str
  | .null => ("null").data
  | .bool b => if b then ("true").data else ("false").data
  | .num n => intToStr n
  | .str s => s
  | .obj _ => ("[object Object]").data
  | .arr items => jsArrToStr items

def jsArrToStr : List JSValue → Str
  | [] => []
  | [v] => jsElemStr v
  | v :: rest => jsElemStr v ++ ',' :: jsArrToStr rest

def jsElemStr : JSValue → Str
  | .null => []
  | v => jsToStrVal v

end

/-- `value.replace(/"/g, '\\"')`. -/
def escapeQuotes : Str → Str
  | [] => []
  | c :: rest =>
    if c = '"' then '\\' :: '"' :: escapeQuotes rest else c :: escapeQuotes rest

/-- Model of `serializeYAMLValue` (yaml-merge.js): scalar rendering, with
strings quoted (and inner quotes escaped) when they contain `:`, `#` or
`"`; `String(value)` is the fallback for container values. -/
def serializeYAMLValue : JSValue → Str
  | .null => ("null").data
  | .bool b => if b then ("true").data else ("false").data
  | .num n => intToStr n
  | .str s =>
    if s.contains ':' || s.contains '#' || s.contains '"' then
      '"' :: (escapeQuotes s ++ ['"'])
    else s
  | other => jsToStrVal other

/-- Lexicographic string order, the default comparator of
`Array.prototype.sort` on the (ASCII) keys these documents use. -/
def strLe : Str → Str → Bool
  | [], _ => true
  | _ :: _, [] => false
  | a :: as, b :: bs => if a < b then true else if b < a then false else strLe as bs

/-- `Object.keys(obj).sort()` materialised on entry lists: a stable sort
of the entries by key (JS sorts the key array, then reads each key; with
the unique keys of a parsed object the two presentations agree). -/
def sortEntries (es : List (Str × JSValue)) : List (Str × JSValue) :=
  List.insertionSort (fun e1 e2 => strLe e1.1 e2.1 = true) es

/-- `' '.repeat(n)`. -/
def spaces (n : Nat) : Str := List.replicate n ' '

/-- A `lines.push(chunk)` of the source: the pushed chunk may itself
contain newlines (nested serializations are joined strings), so it is
split here; the final `join('\n')` of the split pieces yields exactly the
string the source builds. -/
def pushLine (s : Str) : List Str := jsSplit '\n' s

mutual

/-- Fuelled model of `serializeYAML` (yaml-merge.js) as the list of output
lines (the key sort makes the recursion invisible to Lean, hence the
fuel: one unit per list element and per descent, so any fuel above
`jsSize v` reproduces the source).  `null`/`undefined` and scalar roots
produce no lines (the source returns `''`); arrays and objects follow the
source's branch structure, objects emitting their keys in sorted order at
`indent + 2` spaces. -/
def serializeYAMLLinesF : Nat → JSValue → Nat → List Str
  | 0, _, _ => []
  | fuel + 1, .arr items, indent => serializeArrItemsF fuel items indent
  | fuel + 1, .obj entries, indent => serializeObjEntriesF fuel (sortEntries entries) indent
  | _ + 1, _, _ => []

/-- The array branch of `serializeYAML`: one-key object items inline as
`- key: value`; other object items (and array items, which also have
`typeof === 'object'`) serialize at `indent + 2` and are trimmed onto the
dash; arrays push `indentStr + '-\n' + serializeYAML(item, indent + 2)`;
scalars render inline. -/
def serializeArrItemsF : Nat → List JSValue → Nat → List Str
  | 0, _, _ => []
  | _ + 1, [], _ => []
  | fuel + 1, item :: rest, indent =>
    (match item with
     | .obj [(k, w)] =>
       pushLine (spaces indent ++ ("- ").data ++ k ++ (": ").data ++ serializeYAMLValue w)
     | .obj es =>
       pushLine (spaces indent ++ ("- ").data
         ++ jsTrim (joinLines (serializeObjEntriesF fuel (sortEntries es) (indent + 2))))
     | .arr inner =>
       pushLine (spaces indent ++ ['-', '\n'] ++ joinLines (serializeArrItemsF fuel inner (indent + 2)))
     | _ =>
       pushLine (spaces indent ++ ("- ").data ++ serializeYAMLValue item))
    ++ serializeArrItemsF fuel rest indent

/-- The object branch of `serializeYAML`, entry by entry (the entries are
already key-sorted).  `null` values print as `key: null`; array values put
each item under `key:` at two further spaces, with object and array items
serialized at `indent + 4` and trimmed onto the dash; object values push
`key:` and then `serializeYAML(value, indent + 4)` as one chunk; scalars
render inline. -/
def serializeObjEntriesF : Nat → List (Str × JSValue) → Nat → List Str
  | 0, _, _ => []
  | _ + 1, [], _ => []
  | fuel + 1, (key, value) :: rest, indent =>
    (match value with
     | .null => pushLine (spaces (indent + 2) ++ key ++ (": null").data)
     | .arr items =>
       pushLine (spaces (indent + 2) ++ key ++ [':'])
         ++ serializeObjArrItemsF fuel items indent
     | .obj es =>
       pushLine (spaces (indent + 2) ++ key ++ [':'])
         ++ pushLine (joinLines (serializeObjEntriesF fuel (sortEntries es) (indent + 4)))
     | _ =>
       pushLine (spaces (indent + 2) ++ key ++ (": ").data ++ serializeYAMLValue value))
    ++ serializeObjEntriesF fuel rest indent

/-- Items of an array value under an object key. -/
def serializeObjArrItemsF : Nat → List JSValue → Nat → List Str
  | 0, _, _ => []
  | _ + 1, [], _ => []
  | fuel + 1, item :: rest, indent =>
    (match item with
     | .obj es =>
       pushLine (spaces (indent + 2) ++ ("  - ").data
         ++ jsTrim (joinLines (serializeObjEntriesF fuel (sortEntries es) (indent + 4))))
     | .arr inner =>
       pushLine (spaces (indent + 2) ++ ("  - ").data
         ++ jsTrim (joinLines (serializeArrItemsF fuel inner (indent + 4))))
     | _ =>
       pushLine (spaces (indent + 2) ++ ("  - ").data ++ serializeYAMLValue item))
    ++ serializeObjArrItemsF fuel rest indent

end

/-- `serializeYAML` (yaml-merge.js): the joined output text.  The source's
recursion always descends into the value, so `jsSize v + 1` fuel is
sufficient. -/
def serializeYAML (v : JSValue) (indent : Nat) : Str :=
  joinLines (serializeYAMLLinesF (jsSize v + 1) v indent)

/-- `typeof x === 'object'` together with truthiness, the guard of
`MergeResult.toYAML` and `MergeResult.validate`: plain objects and arrays
pass, everything else (including `null`) fails. -/
def jsIsMergeableData : JSValue → Bool
  | .obj _ => true
  | .arr _ => true
  | _ => false

/-- Array items at the root of `MergeResult.toYAML`: object and array
items (both have `typeof === 'object'`) go through `serializeYAML(item, 2)`
and are trimmed onto the dash, scalars render inline. -/
def toYAMLArrItems : List JSValue → List Str
  | [] => []
  | item :: rest =>
    (match item with
     | .obj _ => pushLine (("  - ").data ++ jsTrim (serializeYAML item 2))
     | .arr _ => pushLine (("  - ").data ++ jsTrim (serializeYAML item 2))
     | _ => pushLine (("  - ").data ++ serializeYAMLValue item))
    ++ toYAMLArrItems rest

/-- The per-entry loop of `MergeResult.toYAML` (yaml-merge.js): unlike
`serializeYAML`, the root entries are emitted in insertion order, with
keys at column zero; nested values go through `serializeYAML(…, 2)`. -/
def toYAMLLines : List (Str × JSValue) → List Str
  | [] => []
  | (key, value) :: rest =>
    (match value with
     | .null => pushLine (key ++ (": null").data)
     | .arr items => pushLine (key ++ [':']) ++ toYAMLArrItems items
     | .obj _ =>
       pushLine (key ++ [':']) ++ pushLine (serializeYAML value 2)
     | _ => pushLine (key ++ (": ").data ++ serializeYAMLValue value))
    ++ toYAMLLines rest

/-- Model of `MergeResult.toYAML` (yaml-merge.js) on the merged data:
falsy or non-object data yields empty text; otherwise the entries are
rendered in insertion order.  Every function involved is total, so the
`catch` that would record a serialization error is unreachable. -/
def toYAMLData (d : JSValue) : Str :=
  if jsIsMergeableData d then joinLines (toYAMLLines (entriesOfVal d)) else []

/-- Model of `MergeResult.validate` (yaml-merge.js): an error when the
merged data is falsy or not of object type; the trial `toYAML()` call is
total and can add nothing. -/
def validateMergeData (d : JSValue) : List Str :=
  if jsIsMergeableData d then [] else [("Merged data is not an object").data]

/-- The fields of a `MergeResult` the merge pass populates (the changelog
is write-only bookkeeping and is not modelled). -/
structure MergeResultM where
  success : Bool
  data : JSValue
  errors : List Str
  warnings : List Str
deriving DecidableEq

/-- An argument handed to `mergeYAML`: a string, or any non-string value
(whose only observable property on this path is failing the `typeof`
check). -/
inductive JSArg : Type where
  | strArg : Str → JSArg
  | nonStringArg : JSArg
deriving DecidableEq

/-- Model of `mergeYAML` (yaml-merge.js): non-string arguments short-
circuit with `success = false` and the constructor's empty data; parse
diagnostics would do the same but `parseYAML` never produces one; the
merged data is `mergeObjectsWithChangelog` of the two parses, and
`validate()` errors (none occur for object data) would flip success.
Every step is total, so the surrounding `catch` is unreachable. -/
def mergeYAML (existing update : JSArg) : MergeResultM :=
  match existing with
  | .nonStringArg =>
    ⟨false, .obj [], [("existing parameter must be a string").data], []⟩
  | .strArg e =>
    match update with
    | .nonStringArg =>
      ⟨false, .obj [], [("update parameter must be a string").data], []⟩
    | .strArg u =>
      let ep := parseYAML e
      let up := parseYAML u
      match ep.parseError with
      | some msg =>
        ⟨false, .obj [], [("Existing YAML parse error: ").data ++ msg], []⟩
      | none =>
        match up.parseError with
        | some msg =>
          ⟨false, .obj [], [("Update YAML parse error: ").data ++ msg], []⟩
        | none =>
          let d := mergeObjectsWithChangelog ep.data up.data
          let verrs := validateMergeData d
          ⟨verrs.isEmpty, d, verrs, []⟩

/-- `mergeYAML(existing, update).toYAML()` on string inputs: the complete
text-to-text pipeline of one update run. -/
def mergeRunText (existing update : Str) : Str :=
  toYAMLData (mergeYAML (.strArg existing) (.strArg update)).data

/-! ### Properties of the array deduplicator -/

theorem dedup_foldl_length (u : List JSValue) :
    ∀ acc : List JSValue × Nat,
      (u.foldl dedupStep acc).1.length + acc.2
        = acc.1.length + (u.foldl dedupStep acc).2 := by
  induction u with
  | nil => intro acc; rfl
  | cons x u ih =>
    intro acc
    rw [List.foldl_cons]
    by_cases h : (acc.1.any (fun e => deepEqual x e)) = true
    · have hstep : dedupStep acc x = acc := by simp [dedupStep, h]
      rw [hstep]
      exact ih acc
    · have hstep : dedupStep acc x = (acc.1 ++ [x], acc.2 + 1) := by
        simp [dedupStep, h]
      rw [hstep]
      have := ih (acc.1 ++ [x], acc.2 + 1)
      simp only [List.length_append, List.length_cons, List.length_nil] at this ⊢
      omega

theorem dedup_foldl_grows (u : List JSValue) :
    ∀ acc : List JSValue × Nat, ∃ t, (u.foldl dedupStep acc).1 = acc.1 ++ t := by
  induction u with
  | nil => intro acc; exact ⟨[], by simp⟩
  | cons x u ih =>
    intro acc
    rw [List.foldl_cons]
    by_cases h : (acc.1.any (fun e => deepEqual x e)) = true
    · have hstep : dedupStep acc x = acc := by simp [dedupStep, h]
      rw [hstep]; exact ih acc
    · have hstep : dedupStep acc x = (acc.1 ++ [x], acc.2 + 1) := by
        simp [dedupStep, h]
      rw [hstep]
      obtain ⟨t, ht⟩ := ih (acc.1 ++ [x], acc.2 + 1)
      exact ⟨x :: t, by simpa using ht⟩

theorem dedup_foldl_sublist (u : List JSValue) :
    ∀ acc : List JSValue × Nat,
      ((u.foldl dedupStep acc).1.drop acc.1.length).Sublist u := by
  induction u with
  | nil =>
    intro acc
    simp [List.drop_length]
  | cons x u ih =>
    intro acc
    rw [List.foldl_cons]
    by_cases h : (acc.1.any (fun e => deepEqual x e)) = true
    · have hstep : dedupStep acc x = acc := by simp [dedupStep, h]
      rw [hstep]
      exact (ih acc).cons x
    · have hstep : dedupStep acc x = (acc.1 ++ [x], acc.2 + 1) := by
        simp [dedupStep, h]
      rw [hstep]
      obtain ⟨t, ht⟩ := dedup_foldl_grows u (acc.1 ++ [x], acc.2 + 1)
      have hdropx : (u.foldl dedupStep (acc.1 ++ [x], acc.2 + 1)).1.drop acc.1.length
          = x :: t := by
        rw [ht, List.append_assoc]
        have := List.drop_left acc.1 ([x] ++ t)
        simp only [List.singleton_append] at this
        exact this
      have hdropt : (u.foldl dedupStep (acc.1 ++ [x], acc.2 + 1)).1.drop (acc.1.length + 1)
          = t := by
        rw [ht]
        have : acc.1.length + 1 = (acc.1 ++ [x]).length := by simp
        rw [this]
        exact List.drop_left _ _
      have hsub : t.Sublist u := by
        have := ih (acc.1 ++ [x], acc.2 + 1)
        simpa [hdropt] using this
      rw [hdropx]
      exact hsub.cons₂ x

/-- C1: the spec's accounting `merged.length = E.length + U.length - dedupedCount`
fails on the code: with `E = U = [1]` the merged sequence has length 1 while
the formula gives 2, because the returned count is 0 there (the code counts
the update items it appends, not the ones it drops). -/
theorem dedup_accounting_counterexample :
    ¬ ((deduplicateArraysList [JSValue.num 1] [JSValue.num 1]).1.length
        = 1 + 1 - (deduplicateArraysList [JSValue.num 1] [JSValue.num 1]).2) := by
  decide

/-- C1 (amended): `deduplicateSequences(E, U)` returns a merged sequence whose
first `E.length` elements equal `E` in order and whose length is
`E.length + dedupedCount`: the returned `dedupedCount` is the number of
update items appended as new (at most `U.length`), not the number dropped;
the appended tail is a subsequence of `U`. -/
theorem dedup_accounting (E U : List JSValue) :
    (deduplicateArraysList E U).1.length = E.length + (deduplicateArraysList E U).2
    ∧ (deduplicateArraysList E U).1.take E.length = E
    ∧ (deduplicateArraysList E U).2 ≤ U.length
    ∧ ((deduplicateArraysList E U).1.drop E.length).Sublist U := by
  have hlen : (U.foldl dedupStep (E, 0)).1.length
      = E.length + (U.foldl dedupStep (E, 0)).2 := by
    simpa using dedup_foldl_length U (E, 0)
  obtain ⟨t, ht⟩ := dedup_foldl_grows U (E, 0)
  have hsub := dedup_foldl_sublist U (E, 0)
  refine ⟨hlen, ?_, ?_, hsub⟩
  · show (U.foldl dedupStep (E, 0)).1.take E.length = E
    rw [ht]
    exact List.take_left E t
  · show (U.foldl dedupStep (E, 0)).2 ≤ U.length
    have hdrop : (U.foldl dedupStep (E, 0)).1.drop E.length = t := by
      rw [ht]; exact List.drop_left E t
    have htlen : t.length ≤ U.length := by
      have := hsub.length_le
      simpa [hdrop] using this
    have : (U.foldl dedupStep (E, 0)).1.length = E.length + t.length := by
      rw [ht]; simp
    omega

/-! ### Properties of the structural merger -/

/-- Lookup of the merged-object view of a value. -/
def objLookup (x : JSValue) (k : Str) : Option JSValue :=
  match x with
  | .obj es => jsLookup es k
  | _ => none

theorem lookup_setKey (r : List (Str × JSValue)) (k k' : Str) (v : JSValue) :
    jsLookup (setKey r k' v) k = if k' = k then some v else jsLookup r k := by
  induction r with
  | nil => simp [setKey, jsLookup]
  | cons hd tl ih =>
    obtain ⟨k0, v0⟩ := hd
    by_cases h0 : k0 = k'
    · subst h0
      by_cases hk : k0 = k
      · subst hk; simp [setKey, jsLookup]
      · simp [setKey, jsLookup, hk]
    · by_cases hk : k0 = k
      · subst hk
        have hne : ¬ k' = k0 := fun h => h0 h.symm
        simp [setKey, jsLookup, h0, hne]
      · simp [setKey, jsLookup, h0, hk, ih]

/-- Every step of the merge loop only writes keys of the update; this
classifies the intermediate object after one entry. -/
theorem mergeEntries_step_shape (r : List (Str × JSValue)) (k1 : Str) (v1 : JSValue) :
    (match jsLookup r k1 with
      | some ev =>
        if isObjTypeNonArr ev && isObjTypeNonArr v1 then
          setKey r k1 (mergeObjects ev v1)
        else if isArr ev && isArr v1 then
          setKey r k1 (.arr (deduplicateArrays ev v1).1)
        else r
      | none => setKey r k1 v1) = r
    ∨ ∃ w, (match jsLookup r k1 with
      | some ev =>
        if isObjTypeNonArr ev && isObjTypeNonArr v1 then
          setKey r k1 (mergeObjects ev v1)
        else if isArr ev && isArr v1 then
          setKey r k1 (.arr (deduplicateArrays ev v1).1)
        else r
      | none => setKey r k1 v1) = setKey r k1 w := by
  rcases h : jsLookup r k1 with _ | ev
  · exact Or.inr ⟨v1, rfl⟩
  · by_cases h1 : (isObjTypeNonArr ev && isObjTypeNonArr v1) = true
    · exact Or.inr ⟨mergeObjects ev v1, by simp [h1]⟩
    · by_cases h2 : (isArr ev && isArr v1) = true
      · refine Or.inr ⟨.arr (deduplicateArrays ev v1).1, ?_⟩
        simp [h1, h2]
      · simp [h1, h2]

theorem mergeEntries_lookup_isSome (us : List (Str × JSValue)) :
    ∀ (r : List (Str × JSValue)) (k : Str),
      (jsLookup r k).isSome → (jsLookup (mergeEntries r us) k).isSome := by
  induction us with
  | nil => intro r k h; simpa [mergeEntries] using h
  | cons hd rest ih =>
    intro r k h
    obtain ⟨k1, v1⟩ := hd
    rw [show mergeEntries r ((k1, v1) :: rest)
        = mergeEntries
          (match jsLookup r k1 with
            | some ev =>
              if isObjTypeNonArr ev && isObjTypeNonArr v1 then
                setKey r k1 (mergeObjects ev v1)
              else if isArr ev && isArr v1 then
                setKey r k1 (.arr (deduplicateArrays ev v1).1)
              else r
            | none => setKey r k1 v1) rest from rfl]
    rcases mergeEntries_step_shape r k1 v1 with hr | ⟨w, hw⟩
    · rw [hr]; exact ih r k h
    · rw [hw]
      apply ih
      rw [lookup_setKey]
      by_cases hk : k1 = k
      · simp [hk]
      · simpa [hk] using h

theorem mergeEntries_lookup_notin (us : List (Str × JSValue)) :
    ∀ (r : List (Str × JSValue)) (k : Str),
      jsLookup us k = none → jsLookup (mergeEntries r us) k = jsLookup r k := by
  induction us with
  | nil => intro r k _; rfl
  | cons hd rest ih =>
    intro r k h
    obtain ⟨k1, v1⟩ := hd
    have hk1 : ¬ k1 = k := by
      intro he
      simp [jsLookup, he] at h
    have hrest : jsLookup rest k = none := by
      simpa [jsLookup, hk1] using h
    rw [show mergeEntries r ((k1, v1) :: rest)
        = mergeEntries
          (match jsLookup r k1 with
            | some ev =>
              if isObjTypeNonArr ev && isObjTypeNonArr v1 then
                setKey r k1 (mergeObjects ev v1)
              else if isArr ev && isArr v1 then
                setKey r k1 (.arr (deduplicateArrays ev v1).1)
              else r
            | none => setKey r k1 v1) rest from rfl]
    rcases mergeEntries_step_shape r k1 v1 with hr | ⟨w, hw⟩
    · rw [hr]; exact ih r k hrest
    · rw [hw, ih _ k hrest, lookup_setKey]
      simp [hk1]

/-- C6: the merge never deletes existing data: every key of the existing
mapping is present in `mergeObjects(existing, update)`, and a key absent
from the update keeps its original value. -/
theorem merge_preserves_existing_keys (es us : List (Str × JSValue)) (k : Str)
    (v : JSValue) (h : jsLookup es k = some v) :
    (∃ w, objLookup (mergeObjects (.obj es) (.obj us)) k = some w)
    ∧ (jsLookup us k = none →
        objLookup (mergeObjects (.obj es) (.obj us)) k = some v) := by
  have hm : mergeObjects (.obj es) (.obj us) = .obj (mergeEntries es us) := rfl
  constructor
  · have := mergeEntries_lookup_isSome us es k (by simp [h])
    rcases ho : jsLookup (mergeEntries es us) k with _ | w
    · rw [ho] at this; simp at this
    · exact ⟨w, by simp [hm, objLookup, ho]⟩
  · intro hnone
    have := mergeEntries_lookup_notin us es k hnone
    simp [hm, objLookup, this, h]

/-- Witness for C6 at concrete input: key `a` of the existing mapping
survives a merge with `{b: 2}` with its value intact. -/
theorem merge_preserves_existing_keys_witness :
    objLookup (mergeObjects (.obj [(("a").data, .num 1)]) (.obj [(("b").data, .num 2)]))
      (("a").data) = some (.num 1) :=
  (merge_preserves_existing_keys [(("a").data, .num 1)] [(("b").data, .num 2)]
    (("a").data) (.num 1) (by decide)).2 (by decide)

theorem mergeWCEntriesF_nil (fuel : Nat) (r : List (Str × JSValue)) :
    mergeWCEntriesF fuel r [] = r := by
  cases fuel <;> rfl

theorem mergeWCEntriesF_singleton_replace (fuel : Nat) (es : List (Str × JSValue))
    (k : Str) (v ev : JSValue) (h : jsLookup es k = some ev)
    (h1 : (isArr ev && isArr v) = false)
    (h2 : (isStrictObj ev && isStrictObj v) = false)
    (h3 : jsStrictEq ev v = false) :
    mergeWCEntriesF (fuel + 1) es [(k, v)] = setKey es k v := by
  show mergeWCEntriesF fuel
      (match jsLookup es k with
        | some ev =>
          if isArr ev && isArr v then setKey es k (.arr (deduplicateArrays ev v).1)
          else if isStrictObj ev && isStrictObj v then setKey es k (mergeWCF fuel ev v)
          else if jsStrictEq ev v then es
          else setKey es k v
        | none => setKey es k v) [] = setKey es k v
  rw [h]
  simp only [h1, h2, h3, Bool.false_eq_true, if_false]
  exact mergeWCEntriesF_nil fuel _

theorem mergeWCF_obj_singleton (fuel : Nat) (es : List (Str × JSValue))
    (k : Str) (v ev : JSValue) (h : jsLookup es k = some ev)
    (h1 : (isArr ev && isArr v) = false)
    (h2 : (isStrictObj ev && isStrictObj v) = false)
    (h3 : jsStrictEq ev v = false) :
    mergeWCF (fuel + 2) (.obj es) (.obj [(k, v)]) = .obj (setKey es k v) := by
  show JSValue.obj (mergeWCEntriesF (fuel + 1) (spreadEntries (.obj es))
    (entriesOfVal (.obj [(k, v)]))) = _
  rw [show spreadEntries (JSValue.obj es) = es from rfl,
    show entriesOfVal (JSValue.obj [(k, v)]) = [(k, v)] from rfl,
    mergeWCEntriesF_singleton_replace fuel es k v ev h h1 h2 h3]

/-- C2: the spec's `mergeMappings({a:1}, {a:2}) == {a:2}` fails on the code:
the changelog-free `mergeObjects` keeps the existing value on a scalar
conflict, so the result is `{a:1}`. -/
theorem merge_scalar_conflict_counterexample :
    mergeObjects (.obj [(("a").data, .num 1)]) (.obj [(("a").data, .num 2)])
      = .obj [(("a").data, .num 1)]
    ∧ mergeObjects (.obj [(("a").data, .num 1)]) (.obj [(("a").data, .num 2)])
      ≠ .obj [(("a").data, .num 2)] := by
  constructor
  · decide
  · decide

/-- C2 (amended): the two mergers resolve a shared-key conflict on
non-container values in opposite directions.  The exported changelog-free
`mergeMappings` (`mergeObjects`) keeps the existing mapping untouched
whenever the two values do not both pass its object test (which admits
`null`) and are not both Sequences; the orchestrator's internal merge
(`mergeObjectsWithChangelog`) replaces the existing value with the update
value whenever additionally the two values are not strictly equal, so
there `{a:1}` merged with `{a:2}` does give `{a:2}`. -/
theorem merge_scalar_conflict_resolution :
    (∀ (es : List (Str × JSValue)) (k : Str) (v ev : JSValue),
      jsLookup es k = some ev →
      (isObjTypeNonArr ev && isObjTypeNonArr v) = false →
      (isArr ev && isArr v) = false →
      mergeObjects (.obj es) (.obj [(k, v)]) = .obj es)
    ∧ (∀ (es : List (Str × JSValue)) (k : Str) (v ev : JSValue),
      jsLookup es k = some ev →
      (isArr ev && isArr v) = false →
      (isStrictObj ev && isStrictObj v) = false →
      jsStrictEq ev v = false →
      objLookup (mergeObjectsWithChangelog (.obj es) (.obj [(k, v)])) k = some v) := by
  constructor
  · intro es k v ev h h1 h2
    show JSValue.obj (mergeEntries es [(k, v)]) = .obj es
    have : mergeEntries es [(k, v)] = es := by
      show mergeEntries
        (match jsLookup es k with
          | some ev =>
            if isObjTypeNonArr ev && isObjTypeNonArr v then
              setKey es k (mergeObjects ev v)
            else if isArr ev && isArr v then
              setKey es k (.arr (deduplicateArrays ev v).1)
            else es
          | none => setKey es k v) [] = es
      rw [h]
      simp only [h1, h2, Bool.false_eq_true, if_false]
      rfl
    rw [this]
  · intro es k v ev h h1 h2 h3
    have hsz : jsSize (JSValue.obj [(k, v)]) + 1 = jsSize v + 2 + 2 := by
      simp [jsSize, jsSizeEntries]
      omega
    unfold mergeObjectsWithChangelog
    rw [hsz, mergeWCF_obj_singleton (jsSize v + 2) es k v ev h h1 h2 h3]
    simp [objLookup, lookup_setKey]

/-- Witness for C2's amended theorem at the concrete conflict `{a:1}` vs
`{a:2}`: `mergeObjects` keeps `{a:1}` while the changelog merge binds `a`
to `2`. -/
theorem merge_scalar_conflict_resolution_witness :
    mergeObjects (.obj [(("a").data, .num 1)]) (.obj [(("a").data, .num 2)])
      = .obj [(("a").data, .num 1)]
    ∧ objLookup (mergeObjectsWithChangelog (.obj [(("a").data, .num 1)])
        (.obj [(("a").data, .num 2)])) (("a").data) = some (.num 2) :=
  ⟨merge_scalar_conflict_resolution.1 [(("a").data, .num 1)] (("a").data)
      (.num 2) (.num 1) (by decide) (by decide) (by decide),
   merge_scalar_conflict_resolution.2 [(("a").data, .num 1)] (("a").data)
      (.num 2) (.num 1) (by decide) (by decide) (by decide) (by decide)⟩

/-- C10: the claim that a non-Mapping `existing` makes `mergeMappings`
return the update argument (with the empty Mapping only for absent/null
updates) fails on the code: `update || {}` yields the empty Mapping for
every falsy update, e.g. the number 0. -/
theorem merge_non_mapping_counterexample :
    mergeObjects JSValue.null (JSValue.num 0) = .obj []
    ∧ mergeObjects JSValue.null (JSValue.num 0) ≠ JSValue.num 0 := by
  constructor
  · decide
  · decide

/-- C10 (amended): with a non-Mapping `existing` the result is the update
argument when the update is truthy and the empty Mapping when the update
is falsy (absent, `null`, `false`, `0`, or the empty string); with a
Mapping `existing` and a non-Mapping update the existing mapping is
returned unchanged. -/
theorem merge_non_mapping_tolerance :
    (∀ e u : JSValue, isStrictObj e = false →
      mergeObjects e u = (if isFalsyJS u then .obj [] else u))
    ∧ (∀ (es : List (Str × JSValue)) (u : JSValue), isStrictObj u = false →
      mergeObjects (.obj es) u = .obj es) := by
  constructor
  · intro e u he
    cases e
    case obj es => simp [isStrictObj] at he
    all_goals cases u <;> rfl
  · intro es u hu
    cases u
    case obj us => simp [isStrictObj] at hu
    all_goals rfl

/-- Witness for C10's amended theorem at concrete inputs: a truthy scalar
update passes through, a falsy one yields the empty mapping, and a
non-mapping update leaves a mapping `existing` unchanged. -/
theorem merge_non_mapping_tolerance_witness :
    mergeObjects JSValue.null (JSValue.num 5) = JSValue.num 5
    ∧ mergeObjects JSValue.null JSValue.null = .obj []
    ∧ mergeObjects (.obj [(("a").data, .num 1)]) (JSValue.num 7)
        = .obj [(("a").data, .num 1)] :=
  ⟨merge_non_mapping_tolerance.1 JSValue.null (JSValue.num 5) (by decide),
   merge_non_mapping_tolerance.1 JSValue.null JSValue.null (by decide),
   merge_non_mapping_tolerance.2 [(("a").data, .num 1)] (JSValue.num 7) (by decide)⟩

/-- C5: `validateDocument` reports valid exactly when the parser produced
no diagnostic.  In this code both sides hold for every input: the parser
is total and returns its value without ever setting `parseError`, and the
validator, which only watches for a thrown exception, therefore always
reports valid. -/
theorem validate_iff_no_parse_diagnostic (content : Str) :
    (validateYAML content).valid = true ↔ (parseYAML content).parseError = none := by
  constructor
  · intro _
    unfold parseYAML
    by_cases h : content.isEmpty <;> simp [h]
  · intro _
    unfold validateYAML
    by_cases h : content.isEmpty <;> simp [h]

/-- C7: the orchestrator short-circuits on bad input: a non-string
`existing` or `update` argument yields `success = false`, the specific
input-type message as the only error, and the untouched empty-mapping
data, with no merge attempted; and no text can fail to parse (the parser
never produces a diagnostic), so the parse-error short-circuit is
vacuously respected.  All functions on this path are total, so no
exception can escape. -/
theorem orchestrator_shortcircuit :
    (∀ u : JSArg, mergeYAML .nonStringArg u
      = ⟨false, .obj [], [("existing parameter must be a string").data], []⟩)
    ∧ (∀ e : Str, mergeYAML (.strArg e) .nonStringArg
      = ⟨false, .obj [], [("update parameter must be a string").data], []⟩)
    ∧ (∀ s : Str, (parseYAML s).parseError = none) := by
  refine ⟨fun u => rfl, fun e => rfl, fun s => ?_⟩
  unfold parseYAML
  by_cases h : s.isEmpty <;> simp [h]

/-- C4: idempotence at the text level fails on the code, contradicting the
module's own documentation and test intent.  With an empty existing
document and the update `a:\n  - "123"`, the first run serializes the
string item bare as `- 123`; re-running the same update on that output
re-parses the item as the number 123, which is not deep-equal to the
string "123", so the item is appended again and the second run's text
differs from the first. -/
theorem idempotence_failing_input :
    mergeRunText [] (("a:\n  - \"123\"").data) = ("a:\n  - 123").data
    ∧ mergeRunText (("a:\n  - 123").data) (("a:\n  - \"123\"").data)
      = ("a:\n  - 123\n  - 123").data
    ∧ mergeRunText (mergeRunText [] (("a:\n  - \"123\"").data)) (("a:\n  - \"123\"").data)
      ≠ mergeRunText [] (("a:\n  - \"123\"").data) := by
  refine ⟨by decide, by decide, by decide⟩

/-- C3: the parse/serialize round trip fails on the code: the document
`a: 1` parses to the mapping `{a: 1}`, `serializeYAML` renders it with the
root key indented two spaces as `  a: 1`, and re-parsing that text at
expected indentation 0 skips every line, yielding the empty mapping, which
is not deep-equal to `{a: 1}`. -/
theorem roundtrip_counterexample :
    parseYAMLStr (("a: 1").data) = .obj [(("a").data, .num 1)]
    ∧ serializeYAML (parseYAMLStr (("a: 1").data)) 0 = ("  a: 1").data
    ∧ parseYAMLStr (serializeYAML (parseYAMLStr (("a: 1").data)) 0) = .obj []
    ∧ deepEqual (parseYAMLStr (serializeYAML (parseYAMLStr (("a: 1").data)) 0))
        (parseYAMLStr (("a: 1").data)) = false := by
  refine ⟨by decide, by decide, by decide, by decide⟩

theorem contains_of_jsSplit_length (sep : Char) (s : Str)
    (h : 2 ≤ (jsSplit sep s).length) : s.contains sep = true := by
  induction s with
  | nil => simp [jsSplit] at h
  | cons c rest ih =>
    rcases hsplit : jsSplit sep rest with _ | ⟨s0, ss⟩
    · rw [jsSplit, hsplit] at h
      simp at h
    · by_cases hc : c = sep
      · simp [List.contains_cons, hc]
      · rw [jsSplit, hsplit] at h
        simp only [hc, if_false] at h
        have hlen : 2 ≤ (jsSplit sep rest).length := by
          rw [hsplit]
          simpa using h
        have hmem : sep ∈ rest := by simpa using ih hlen
        simp [List.contains_cons, hmem]

/-- C8, counterexample to the original wording: the token `0x1A` does not
parse as a decimal number, so under "every remaining token becomes a bare
String" it would stay the String `0x1A`; but `Number('0x1A')` is 26, so
the code returns the Number 26.  The exponent spelling `1e3` likewise
becomes the Number 1000. -/
theorem scalar_token_rules_counterexample :
    parseYAMLValue (("0x1A").data) = .num 26
    ∧ parseYAMLValue (("0x1A").data) ≠ .str (("0x1A").data)
    ∧ parseYAMLValue (("1e3").data) = .num 1000 := by
  decide

/-- C8 (amended): the scalar value rule.  For a trimmed nonempty token
that is none of the fixed literals and is not quoted: a token of exactly
two all-digit dotted segments stays a String (the version guard); a token
of three or more dotted segments is not protected by that guard yet still
ends up a bare String, because the embedded dot disqualifies the Number
conversion; a dot-free token accepted by `Number()` — in any of its
spellings: decimal, exponent, hexadecimal, octal, binary, `Infinity` —
becomes a Number, with the literal's value whenever that value is an
exact integer; and a token rejected by `Number()` stays a bare String. -/
theorem scalar_token_rules (s : Str) (htrim : jsTrim s = s) (hne : s ≠ [])
    (h1 : s ≠ ("null").data) (h2 : s ≠ ("~").data) (h3 : s ≠ ("true").data)
    (h4 : s ≠ ("false").data) (h5 : s ≠ ("[]").data) (h6 : s ≠ ("{}").data)
    (h7 : ¬(s.head? = some '"' ∧ s.getLast? = some '"'))
    (h8 : ¬(s.head? = some '\'' ∧ s.getLast? = some '\'')) :
    ((s.contains '.' = true ∧ (jsSplit '.' s).length = 2
        ∧ (jsSplit '.' s).all isDigitStr = true → parseYAMLValue s = .str s)
     ∧ (3 ≤ (jsSplit '.' s).length → parseYAMLValue s = .str s)
     ∧ (∀ n : Int, s.contains '.' = false → jsNumberAccepts s = true →
          jsNumberOpt s = some n → parseYAMLValue s = .num n)
     ∧ (s.contains '.' = false → jsNumberAccepts s = true →
          ∃ n : Int, parseYAMLValue s = .num n)
     ∧ (s.contains '.' = false → jsNumberAccepts s = false →
          parseYAMLValue s = .str s)) := by
  have hempty : s.isEmpty = false := by
    cases s with
    | nil => exact absurd rfl hne
    | cons c t => rfl
  have hquote : (s.head? = some '"' && s.getLast? = some '"') = false := by
    by_cases hh : s.head? = some '"'
    · have : ¬ s.getLast? = some '"' := fun hl => h7 ⟨hh, hl⟩
      simp [hh, this]
    · simp [hh]
  have hquote' : (s.head? = some '\'' && s.getLast? = some '\'') = false := by
    by_cases hh : s.head? = some '\''
    · have : ¬ s.getLast? = some '\'' := fun hl => h8 ⟨hh, hl⟩
      simp [hh, this]
    · simp [hh]
  have hval : parseYAMLValue s =
      (if s.contains '.' && (jsSplit '.' s).length = 2
          && (jsSplit '.' s).all isDigitStr then .str s
       else if jsNumberAccepts s && !s.isEmpty && !s.contains '.' then
         .num ((jsNumberOpt s).getD 0)
       else .str s) := by
    unfold parseYAMLValue
    rw [if_neg (by simp [hempty] : ¬ s.isEmpty = true)]
    simp only [htrim]
    rw [if_neg (by simp [h1, h2]), if_neg (by simp [h3]), if_neg (by simp [h4]),
      if_neg (by simp [h5]), if_neg (by simp [h6]),
      if_neg (by simp [hquote]), if_neg (by simp [hquote'])]
  refine ⟨?_, ?_, ?_, ?_, ?_⟩
  · rintro ⟨hc, hl, hd⟩
    have hcond : (s.contains '.' && decide ((jsSplit '.' s).length = 2)
        && (jsSplit '.' s).all isDigitStr) = true := by
      simp only [hc, hd, Bool.true_and, Bool.and_true]
      exact decide_eq_true hl
    rw [hval, if_pos hcond]
  · intro h3seg
    have hc : s.contains '.' = true :=
      contains_of_jsSplit_length '.' s (by omega)
    have hl : ¬ (jsSplit '.' s).length = 2 := by omega
    have hmem : '.' ∈ s := by simpa using hc
    rw [hval, if_neg (by simp [hl]), if_neg (by simp [hmem])]
  · intro n hc hacc hnum
    have hcm : '.' ∉ s := by simpa using hc
    have hcond : (jsNumberAccepts s && !s.isEmpty && !s.contains '.') = true := by
      simp [hacc, hempty, hc, hcm]
    rw [hval, if_neg (by simp [hcm]), if_pos hcond, hnum]
    rfl
  · intro hc hacc
    have hcm : '.' ∉ s := by simpa using hc
    have hcond : (jsNumberAccepts s && !s.isEmpty && !s.contains '.') = true := by
      simp [hacc, hempty, hc, hcm]
    rw [hval, if_neg (by simp [hcm]), if_pos hcond]
    exact ⟨(jsNumberOpt s).getD 0, rfl⟩
  · intro hc hacc
    have hcm : '.' ∉ s := by simpa using hc
    rw [hval, if_neg (by simp [hcm]), if_neg (by simp [hacc])]

/-- Witness for C8 at concrete tokens: `1.0` is protected as a String,
`1.0.0` ends up a String via the fallback, `42` becomes the Number 42,
`1e3` becomes the Number 1000, `Infinity` is classified as a Number, and
`hello` stays a bare String. -/
theorem scalar_token_rules_witness :
    parseYAMLValue (("1.0").data) = .str (("1.0").data)
    ∧ parseYAMLValue (("1.0.0").data) = .str (("1.0.0").data)
    ∧ parseYAMLValue (("42").data) = .num 42
    ∧ parseYAMLValue (("1e3").data) = .num 1000
    ∧ (∃ n : Int, parseYAMLValue (("Infinity").data) = .num n)
    ∧ parseYAMLValue (("hello").data) = .str (("hello").data) :=
  ⟨(scalar_token_rules (("1.0").data) (by decide) (by decide) (by decide) (by decide)
      (by decide) (by decide) (by decide) (by decide) (by decide) (by decide)).1
    ⟨by decide, by decide, by decide⟩,
   (scalar_token_rules (("1.0.0").data) (by decide) (by decide) (by decide) (by decide)
      (by decide) (by decide) (by decide) (by decide) (by decide) (by decide)).2.1
    (by decide),
   (scalar_token_rules (("42").data) (by decide) (by decide) (by decide) (by decide)
      (by decide) (by decide) (by decide) (by decide) (by decide) (by decide)).2.2.1
    42 (by decide) (by decide) (by decide),
   (scalar_token_rules (("1e3").data) (by decide) (by decide) (by decide) (by decide)
      (by decide) (by decide) (by decide) (by decide) (by decide) (by decide)).2.2.1
    1000 (by decide) (by decide) (by decide),
   (scalar_token_rules (("Infinity").data) (by decide) (by decide) (by decide) (by decide)
      (by decide) (by decide) (by decide) (by decide) (by decide) (by decide)).2.2.2.1
    (by decide) (by decide),
   (scalar_token_rules (("hello").data) (by decide) (by decide) (by decide) (by decide)
      (by decide) (by decide) (by decide) (by decide) (by decide) (by decide)).2.2.2.2
    (by decide) (by decide)⟩

/-! ### Key ordering of the serializer -/

theorem strLe_cons_iff (x y : Char) (xs ys : Str) :
    strLe (x :: xs) (y :: ys) = true ↔ x < y ∨ (x = y ∧ strLe xs ys = true) := by
  show (if x < y then true else if y < x then false else strLe xs ys) = true ↔ _
  rcases lt_trichotomy x y with h | h | h
  · simp [h]
  · simp [h, lt_irrefl]
  · simp [h, not_lt_of_lt h, ne_of_gt h]

theorem strLe_total (a : Str) : ∀ b : Str, strLe a b = true ∨ strLe b a = true := by
  induction a with
  | nil => intro b; exact Or.inl rfl
  | cons x xs ih =>
    intro b
    cases b with
    | nil => exact Or.inr rfl
    | cons y ys =>
      rcases lt_trichotomy x y with h | h | h
      · exact Or.inl ((strLe_cons_iff x y xs ys).2 (Or.inl h))
      · subst h
        rcases ih ys with h' | h'
        · exact Or.inl ((strLe_cons_iff x x xs ys).2 (Or.inr ⟨rfl, h'⟩))
        · exact Or.inr ((strLe_cons_iff x x ys xs).2 (Or.inr ⟨rfl, h'⟩))
      · exact Or.inr ((strLe_cons_iff y x ys xs).2 (Or.inl h))

theorem strLe_trans (a : Str) : ∀ b c : Str,
    strLe a b = true → strLe b c = true → strLe a c = true := by
  induction a with
  | nil => intro b c _ _; rfl
  | cons x xs ih =>
    intro b c h1 h2
    cases b with
    | nil => simp [strLe] at h1
    | cons y ys =>
      cases c with
      | nil => simp [strLe] at h2
      | cons z zs =>
        rcases (strLe_cons_iff x y xs ys).1 h1 with hxy | ⟨hxy, ht1⟩
        · rcases (strLe_cons_iff y z ys zs).1 h2 with hyz | ⟨hyz, _⟩
          · exact (strLe_cons_iff x z xs zs).2 (Or.inl (lt_trans hxy hyz))
          · exact (strLe_cons_iff x z xs zs).2 (Or.inl (hyz ▸ hxy))
        · subst hxy
          rcases (strLe_cons_iff x z ys zs).1 h2 with hyz | ⟨hyz, ht2⟩
          · exact (strLe_cons_iff x z xs zs).2 (Or.inl hyz)
          · subst hyz
            exact (strLe_cons_iff x x xs zs).2 (Or.inr ⟨rfl, ih ys zs ht1 ht2⟩)

theorem strLe_antisymm (a : Str) : ∀ b : Str,
    strLe a b = true → strLe b a = true → a = b := by
  induction a with
  | nil =>
    intro b _ h2
    cases b with
    | nil => rfl
    | cons y ys => simp [strLe] at h2
  | cons x xs ih =>
    intro b h1 h2
    cases b with
    | nil => simp [strLe] at h1
    | cons y ys =>
      rcases (strLe_cons_iff x y xs ys).1 h1 with hxy | ⟨hxy, ht1⟩
      · rcases (strLe_cons_iff y x ys xs).1 h2 with hyx | ⟨hyx, _⟩
        · exact absurd hyx (not_lt_of_lt hxy)
        · exact absurd hxy (by rw [hyx]; exact lt_irrefl x)
      · subst hxy
        rcases (strLe_cons_iff x x ys xs).1 h2 with hyx | ⟨_, ht2⟩
        · exact absurd hyx (lt_irrefl x)
        · rw [ih ys ht1 ht2]

/-- Two key-sorted presentations of the same entries with duplicate-free
keys coincide. -/
theorem sorted_perm_nodupkeys_eq :
    ∀ (l1 l2 : List (Str × JSValue)), l1.Perm l2 →
      l1.Pairwise (fun e1 e2 => strLe e1.1 e2.1 = true) →
      l2.Pairwise (fun e1 e2 => strLe e1.1 e2.1 = true) →
      (l1.map Prod.fst).Nodup → l1 = l2 := by
  intro l1
  induction l1 with
  | nil =>
    intro l2 hp _ _ _
    exact (hp.symm.eq_nil).symm
  | cons e1 t1 ih =>
    intro l2 hp hs1 hs2 hnd
    cases l2 with
    | nil => exact absurd hp.eq_nil (by simp)
    | cons e2 t2 =>
      have he : e1 = e2 := by
        by_contra hne
        have he1 : e1 ∈ t2 := by
          have : e1 ∈ e2 :: t2 := hp.mem_iff.1 (List.mem_cons_self e1 t1)
          rcases List.mem_cons.1 this with h | h
          · exact absurd h hne
          · exact h
        have he2 : e2 ∈ t1 := by
          have : e2 ∈ e1 :: t1 := hp.symm.mem_iff.1 (List.mem_cons_self e2 t2)
          rcases List.mem_cons.1 this with h | h
          · exact absurd h.symm hne
          · exact h
        have h12 : strLe e1.1 e2.1 = true := (List.pairwise_cons.1 hs1).1 e2 he2
        have h21 : strLe e2.1 e1.1 = true := (List.pairwise_cons.1 hs2).1 e1 he1
        have hk : e1.1 = e2.1 := strLe_antisymm e1.1 e2.1 h12 h21
        have : e1.1 ∈ t1.map Prod.fst := by
          rw [hk]
          exact List.mem_map_of_mem Prod.fst he2
        exact (List.nodup_cons.1 hnd).1 this
      subst he
      have htp : t1.Perm t2 := hp.cons_inv
      have := ih t2 htp (List.pairwise_cons.1 hs1).2 (List.pairwise_cons.1 hs2).2
        (List.nodup_cons.1 hnd).2
      rw [this]

theorem jsSizeEntries_eq_sum (l : List (Str × JSValue)) :
    jsSizeEntries l = (l.map (fun e => 1 + jsSize e.2)).sum + 1 := by
  induction l with
  | nil => simp [jsSizeEntries]
  | cons e rest ih =>
    obtain ⟨k, v⟩ := e
    simp [jsSizeEntries, ih]
    omega

theorem jsSizeEntries_perm {l1 l2 : List (Str × JSValue)} (h : l1.Perm l2) :
    jsSizeEntries l1 = jsSizeEntries l2 := by
  rw [jsSizeEntries_eq_sum, jsSizeEntries_eq_sum, (h.map (fun e => 1 + jsSize e.2)).sum_eq]

/-- C9: the claim that `MergeResult.toText()` also emits the root mapping's
keys in ascending lexicographic order fails on the code: `toYAML` walks
`Object.entries` in insertion order, so `{b:1, a:2}` serializes as
`b: 1\na: 2` and a re-ordered insertion produces a different text. -/
theorem toYAML_key_order_counterexample :
    toYAMLData (.obj [(("b").data, .num 1), (("a").data, .num 2)]) = ("b: 1\na: 2").data
    ∧ toYAMLData (.obj [(("b").data, .num 1), (("a").data, .num 2)])
      ≠ toYAMLData (.obj [(("a").data, .num 2), (("b").data, .num 1)]) := by
  refine ⟨by decide, by decide⟩

/-- C9 (amended): `serializeDocument` does emit every mapping's keys in
ascending lexicographic order regardless of insertion order: the entry
list it renders is key-sorted and a permutation of the input, and two
insertion orders of the same duplicate-free entries serialize to the same
text.  `MergeResult.toText()`, by contrast, emits the root keys in
insertion order (nested mappings still go through `serializeDocument` and
are sorted). -/
theorem serialize_sorted_key_order :
    (∀ es : List (Str × JSValue),
        (sortEntries es).Pairwise (fun e1 e2 => strLe e1.1 e2.1 = true))
    ∧ (∀ es : List (Str × JSValue), (sortEntries es).Perm es)
    ∧ (∀ (es es' : List (Str × JSValue)) (ind : Nat), es.Perm es' →
        (es.map Prod.fst).Nodup →
        serializeYAML (.obj es) ind = serializeYAML (.obj es') ind) := by
  haveI htot : IsTotal (Str × JSValue) (fun e1 e2 => strLe e1.1 e2.1 = true) :=
    ⟨fun a b => strLe_total a.1 b.1⟩
  haveI htr : IsTrans (Str × JSValue) (fun e1 e2 => strLe e1.1 e2.1 = true) :=
    ⟨fun a b c h1 h2 => strLe_trans a.1 b.1 c.1 h1 h2⟩
  refine ⟨fun es => List.sorted_insertionSort _ es,
    fun es => List.perm_insertionSort _ es, fun es es' ind hperm hnd => ?_⟩
  have hsort : sortEntries es = sortEntries es' := by
    apply sorted_perm_nodupkeys_eq
    · exact (List.perm_insertionSort _ es).trans
        (hperm.trans (List.perm_insertionSort _ es').symm)
    · exact List.sorted_insertionSort _ es
    · exact List.sorted_insertionSort _ es'
    · have hmap : ((sortEntries es).map Prod.fst).Perm (es.map Prod.fst) :=
        (List.perm_insertionSort _ es).map Prod.fst
      exact hmap.nodup_iff.2 hnd
  have hsize : jsSize (JSValue.obj es) = jsSize (JSValue.obj es') := by
    show 1 + jsSizeEntries es = 1 + jsSizeEntries es'
    rw [jsSizeEntries_perm hperm]
  unfold serializeYAML
  rw [hsize]
  show joinLines (serializeObjEntriesF (jsSize (JSValue.obj es')) (sortEntries es) ind)
    = joinLines (serializeObjEntriesF (jsSize (JSValue.obj es')) (sortEntries es') ind)
  rw [hsort]

/-- Witness for C9's amended theorem at a concrete pair: the same two
entries inserted in either order serialize identically through
`serializeYAML`. -/
theorem serialize_sorted_key_order_witness :
    serializeYAML (.obj [(("b").data, .num 1), (("a").data, .num 2)]) 0
      = serializeYAML (.obj [(("a").data, .num 2), (("b").data, .num 1)]) 0 :=
  serialize_sorted_key_order.2.2 [(("b").data, .num 1), (("a").data, .num 2)]
    [(("a").data, .num 2), (("b").data, .num 1)] 0 (by decide) (by decide)

/-! ### Round trip of a root mapping through the serializer -/

theorem jsSplit_ne_nil (sep : Char) (s : Str) : jsSplit sep s ≠ [] := by
  cases s with
  | nil => simp [jsSplit]
  | cons c rest =>
    rw [jsSplit]
    rcases jsSplit sep rest with _ | ⟨s0, ss⟩
    · simp
    · by_cases hc : c = sep <;> simp [hc]

theorem jsSplit_eq_single (sep : Char) (s : Str) (h : sep ∉ s) :
    jsSplit sep s = [s] := by
  induction s with
  | nil => rfl
  | cons c rest ih =>
    have hc : ¬ c = sep := fun he => h (he ▸ List.mem_cons_self c rest)
    have hrest : sep ∉ rest := fun hm => h (List.mem_cons_of_mem c hm)
    rw [jsSplit, ih hrest]
    simp [hc]

theorem jsSplit_append_cons (sep : Char) (l t : Str) (h : sep ∉ l) :
    jsSplit sep (l ++ sep :: t) = l :: jsSplit sep t := by
  induction l with
  | nil =>
    rw [List.nil_append, jsSplit]
    rcases hs : jsSplit sep t with _ | ⟨s0, ss⟩
    · exact absurd hs (jsSplit_ne_nil sep t)
    · simp
  | cons c l' ih =>
    have hc : ¬ c = sep := fun he => h (he ▸ List.mem_cons_self c l')
    have hl' : sep ∉ l' := fun hm => h (List.mem_cons_of_mem c hm)
    rw [List.cons_append, jsSplit, ih hl']
    simp [hc]

theorem jsSplit_joinLines (ls : List Str) (hne : ls ≠ [])
    (hnl : ∀ l ∈ ls, '\n' ∉ l) : jsSplit '\n' (joinLines ls) = ls := by
  induction ls with
  | nil => exact absurd rfl hne
  | cons l rest ih =>
    cases rest with
    | nil =>
      rw [show joinLines [l] = l from rfl]
      exact jsSplit_eq_single '\n' l (hnl l (List.mem_cons_self l []))
    | cons l2 rest2 =>
      rw [show joinLines (l :: l2 :: rest2) = l ++ '\n' :: joinLines (l2 :: rest2) from rfl]
      rw [jsSplit_append_cons '\n' l _ (hnl l (List.mem_cons_self l _))]
      rw [ih (by simp) (fun x hx => hnl x (List.mem_cons_of_mem l hx))]

theorem natToStrF_no_newline (fuel : Nat) : ∀ n : Nat, '\n' ∉ natToStrF fuel n := by
  induction fuel with
  | zero => intro n; simp [natToStrF]
  | succ fuel ih =>
    intro n
    by_cases h : n < 10
    · rw [natToStrF, if_pos h]
      intro hm
      rcases List.mem_singleton.1 hm with he
      interval_cases n <;> exact absurd he (by decide)
    · rw [natToStrF, if_neg h]
      intro hm
      rcases List.mem_append.1 hm with hm1 | hm2
      · exact ih (n / 10) hm1
      · rcases List.mem_singleton.1 hm2 with he
        have hlt : n % 10 < 10 := Nat.mod_lt n (by norm_num)
        obtain ⟨m, hm10, hme⟩ : ∃ m, m < 10 ∧ '\n' = Char.ofNat ('0'.toNat + m) :=
          ⟨n % 10, hlt, he⟩
        interval_cases m <;> exact absurd hme (by decide)

theorem intToStr_no_newline (n : Int) : '\n' ∉ intToStr n := by
  unfold intToStr
  by_cases h : n < 0
  · rw [if_pos h]
    intro hm
    rcases List.mem_cons.1 hm with he | hm'
    · exact absurd he (by decide)
    · exact natToStrF_no_newline _ _ hm'
  · rw [if_neg h]
    exact natToStrF_no_newline _ _

theorem escapeQuotes_no_newline (s : Str) (h : '\n' ∉ s) : '\n' ∉ escapeQuotes s := by
  induction s with
  | nil => simp [escapeQuotes]
  | cons c rest ih =>
    have hc : ¬ '\n' = c := fun he => h (he ▸ List.mem_cons_self c rest)
    have hrest : '\n' ∉ rest := fun hm => h (List.mem_cons_of_mem c hm)
    rw [escapeQuotes]
    by_cases hq : c = '"'
    · rw [if_pos hq]
      intro hm
      rcases List.mem_cons.1 hm with he | hm'
      · exact absurd he (by decide)
      · rcases List.mem_cons.1 hm' with he | hm''
        · exact absurd he (by decide)
        · exact ih hrest hm''
    · rw [if_neg hq]
      intro hm
      rcases List.mem_cons.1 hm with he | hm'
      · exact hc he
      · exact ih hrest hm'

/-- A value of scalar kind (everything but arrays and objects). -/
def isScalarValue : JSValue → Bool
  | .null => true
  | .bool _ => true
  | .num _ => true
  | .str _ => true
  | _ => false

/-- No newline inside a string scalar (other kinds render without one). -/
def noNewlineStr : JSValue → Bool
  | .str s => !s.contains '\n'
  | _ => true

theorem serializeYAMLValue_no_newline (v : JSValue) (hs : isScalarValue v = true)
    (hn : noNewlineStr v = true) : '\n' ∉ serializeYAMLValue v := by
  cases v with
  | null => decide
  | bool b => cases b <;> decide
  | num n => exact intToStr_no_newline n
  | str s =>
    have hmem : '\n' ∉ s := by simpa [noNewlineStr] using hn
    rw [serializeYAMLValue]
    by_cases hq : (s.contains ':' || s.contains '#' || s.contains '"') = true
    · rw [if_pos hq]
      intro hm
      rcases List.mem_cons.1 hm with he | hm'
      · exact absurd he (by decide)
      · rcases List.mem_append.1 hm' with hm1 | hm2
        · exact escapeQuotes_no_newline s hmem hm1
        · exact absurd (List.mem_singleton.1 hm2) (by decide)
    · rw [if_neg hq]
      exact hmem
  | arr items => simp [isScalarValue] at hs
  | obj entries => simp [isScalarValue] at hs

theorem pushLine_single (s : Str) (h : '\n' ∉ s) : pushLine s = [s] :=
  jsSplit_eq_single '\n' s h

theorem no_newline_spaces (n : Nat) : '\n' ∉ spaces n := by
  simp [spaces, List.mem_replicate]

theorem jsSize_pos (v : JSValue) : 1 ≤ jsSize v := by
  cases v <;> simp [jsSize]

theorem jsSizeEntries_ge_length (l : List (Str × JSValue)) :
    l.length + 1 ≤ jsSizeEntries l := by
  induction l with
  | nil => simp [jsSizeEntries]
  | cons e rest ih =>
    obtain ⟨k, v⟩ := e
    have := jsSize_pos v
    simp [jsSizeEntries]
    omega

/-- The line a scalar entry contributes at indentation `ind`. -/
def scalarEntryLine (ind : Nat) (e : Str × JSValue) : Str :=
  spaces (ind + 2) ++ e.1 ++ (": ").data ++ serializeYAMLValue e.2

theorem scalarEntryLine_no_newline (ind : Nat) (e : Str × JSValue)
    (hs : isScalarValue e.2 = true) (hk : '\n' ∉ e.1)
    (hv : noNewlineStr e.2 = true) : '\n' ∉ scalarEntryLine ind e := by
  unfold scalarEntryLine
  intro hm
  rcases List.mem_append.1 hm with hm1 | hm2
  · rcases List.mem_append.1 hm1 with hm3 | hm4
    · rcases List.mem_append.1 hm3 with hm5 | hm6
      · exact no_newline_spaces (ind + 2) hm5
      · exact hk hm6
    · exact absurd hm4 (by decide)
  · exact serializeYAMLValue_no_newline e.2 hs hv hm2

theorem serializeObjEntriesF_scalar (l : List (Str × JSValue)) :
    ∀ (fuel ind : Nat), l.length + 1 ≤ fuel →
      (∀ e ∈ l, isScalarValue e.2 = true) →
      (∀ e ∈ l, '\n' ∉ e.1) →
      (∀ e ∈ l, noNewlineStr e.2 = true) →
      serializeObjEntriesF fuel l ind = l.map (scalarEntryLine ind) := by
  induction l with
  | nil =>
    intro fuel ind hfuel _ _ _
    cases fuel with
    | zero => omega
    | succ f => rfl
  | cons e rest ih =>
    intro fuel ind hfuel hs hk hv
    obtain ⟨k, v⟩ := e
    cases fuel with
    | zero => simp at hfuel
    | succ f =>
      have hmem : (k, v) ∈ (k, v) :: rest := List.mem_cons_self _ _
      have hsv : isScalarValue v = true := hs _ hmem
      have hkv : '\n' ∉ k := hk _ hmem
      have hvv : noNewlineStr v = true := hv _ hmem
      have hnl : '\n' ∉ scalarEntryLine ind (k, v) :=
        scalarEntryLine_no_newline ind (k, v) hsv hkv hvv
      have hrest : serializeObjEntriesF f rest ind = rest.map (scalarEntryLine ind) :=
        ih f ind (by simp only [List.length_cons] at hfuel; omega)
          (fun e he => hs e (List.mem_cons_of_mem _ he))
          (fun e he => hk e (List.mem_cons_of_mem _ he))
          (fun e he => hv e (List.mem_cons_of_mem _ he))
      cases v with
      | null =>
        show pushLine (spaces (ind + 2) ++ k ++ (": null").data)
            ++ serializeObjEntriesF f rest ind = _
        have heq : spaces (ind + 2) ++ k ++ (": null").data
            = scalarEntryLine ind (k, JSValue.null) := by
          unfold scalarEntryLine
          show _ = spaces (ind + 2) ++ k ++ (": ").data ++ ("null").data
          rw [List.append_assoc (spaces (ind + 2) ++ k)]
          rfl
        rw [heq, pushLine_single _ hnl, hrest]
        rfl
      | bool b =>
        show pushLine (spaces (ind + 2) ++ k ++ (": ").data ++ serializeYAMLValue (.bool b))
            ++ serializeObjEntriesF f rest ind = _
        have hnl2 : '\n' ∉ spaces (ind + 2) ++ k ++ (": ").data
            ++ serializeYAMLValue (.bool b) := hnl
        rw [pushLine_single _ hnl2, hrest]
        rfl
      | num n =>
        show pushLine (spaces (ind + 2) ++ k ++ (": ").data ++ serializeYAMLValue (.num n))
            ++ serializeObjEntriesF f rest ind = _
        have hnl2 : '\n' ∉ spaces (ind + 2) ++ k ++ (": ").data
            ++ serializeYAMLValue (.num n) := hnl
        rw [pushLine_single _ hnl2, hrest]
        rfl
      | str s =>
        show pushLine (spaces (ind + 2) ++ k ++ (": ").data ++ serializeYAMLValue (.str s))
            ++ serializeObjEntriesF f rest ind = _
        have hnl2 : '\n' ∉ spaces (ind + 2) ++ k ++ (": ").data
            ++ serializeYAMLValue (.str s) := hnl
        rw [pushLine_single _ hnl2, hrest]
        rfl
      | arr items => simp [isScalarValue] at hsv
      | obj entries => simp [isScalarValue] at hsv

theorem indentOf_pos_of_head_space (line : Str) (t : Str) (h : line = ' ' :: t) :
    0 < indentOf line := by
  subst h
  unfold indentOf jsTrimStart
  rw [List.dropWhile_cons]
  simp only [show isSpaceChar ' ' = true from rfl, if_true]
  have hle : (List.dropWhile isSpaceChar t).length ≤ t.length :=
    List.Sublist.length_le (List.dropWhile_sublist isSpaceChar)
  simp only [List.length_cons]
  omega

theorem parseLoopF_skip_step (lines : List Str) (fuel i : Nat)
    (r : List (Str × JSValue)) (it : List JSValue) (ia cur : Bool)
    (hi : i < lines.length) (hhead : (lineAt lines i).head? = some ' ') :
    parseLoopF (fuel + 1) lines i 0 r it ia cur
      = parseLoopF fuel lines (i + 1) 0 r it ia cur := by
  obtain ⟨t, hline⟩ : ∃ t, lineAt lines i = ' ' :: t := by
    rcases hL : lineAt lines i with _ | ⟨c, t⟩
    · rw [hL] at hhead; simp at hhead
    · rw [hL] at hhead
      simp only [List.head?_cons, Option.some.injEq] at hhead
      exact ⟨t, by rw [hhead]⟩
  have hind : 0 < indentOf (lineAt lines i) :=
    indentOf_pos_of_head_space _ t hline
  rw [parseLoopF, if_pos hi]
  simp only []
  by_cases hskip : ((jsTrim (lineAt lines i)).isEmpty
      || decide ((jsTrim (lineAt lines i)).head? = some '#')) = true
  · rw [if_pos hskip]
  · rw [if_neg hskip, if_neg (Nat.not_lt_zero _), if_pos hind]

theorem parseLoopF_all_indented (lines : List Str)
    (hl : ∀ l ∈ lines, l.head? = some ' ') :
    ∀ (fuel i : Nat) (r : List (Str × JSValue)) (it : List JSValue) (ia cur : Bool),
      (parseLoopF fuel lines i 0 r it ia cur).data
        = (if ia && !it.isEmpty then JSValue.arr it else JSValue.obj r) := by
  intro fuel
  induction fuel with
  | zero => intro i r it ia cur; rfl
  | succ fuel ih =>
    intro i r it ia cur
    by_cases hi : i < lines.length
    · have hmem : lineAt lines i ∈ lines := by
        unfold lineAt
        rw [List.getD_eq_getElem lines [] hi]
        exact List.getElem_mem hi
      rw [parseLoopF_skip_step lines fuel i r it ia cur hi (hl _ hmem)]
      exact ih (i + 1) r it ia cur
    · rw [parseLoopF, if_neg hi]
      rfl

theorem serializeYAML_obj_scalar (es : List (Str × JSValue))
    (hs : ∀ e ∈ es, isScalarValue e.2 = true)
    (hk : ∀ e ∈ es, '\n' ∉ e.1)
    (hv : ∀ e ∈ es, noNewlineStr e.2 = true) :
    serializeYAML (.obj es) 0
      = joinLines ((sortEntries es).map (scalarEntryLine 0)) := by
  have hperm : (sortEntries es).Perm es :=
    List.perm_insertionSort (fun e1 e2 : Str × JSValue => strLe e1.1 e2.1 = true) es
  have hlen : (sortEntries es).length = es.length := hperm.length_eq
  have hfuel : (sortEntries es).length + 1 ≤ jsSize (JSValue.obj es) := by
    have h1 : es.length + 1 ≤ jsSizeEntries es := jsSizeEntries_ge_length es
    have h2 : jsSize (JSValue.obj es) = 1 + jsSizeEntries es := rfl
    omega
  unfold serializeYAML
  rw [show serializeYAMLLinesF (jsSize (JSValue.obj es) + 1) (JSValue.obj es) 0
      = serializeObjEntriesF (jsSize (JSValue.obj es)) (sortEntries es) 0 from rfl]
  rw [serializeObjEntriesF_scalar (sortEntries es) (jsSize (JSValue.obj es)) 0 hfuel
    (fun e he => hs e (hperm.subset he))
    (fun e he => hk e (hperm.subset he))
    (fun e he => hv e (hperm.subset he))]

/-- C3 (amended): the round trip fails for every document whose parse is a
nonempty root Mapping, because `serializeYAML` indents every root key two
spaces and the re-parse at expected indentation 0 skips every such line:
for a mapping of scalar newline-free fields the re-parse of the
serialization is the empty Mapping, not deep-equal to the original when it
is nonempty (round-trip equality holds only in the degenerate empty case,
e.g. empty text; `MergeResult.toYAML`, which emits root keys unindented,
is what the orchestrator uses to produce re-parseable text). -/
theorem roundtrip_root_mapping_collapses (es : List (Str × JSValue))
    (hs : ∀ e ∈ es, isScalarValue e.2 = true)
    (hk : ∀ e ∈ es, '\n' ∉ e.1)
    (hv : ∀ e ∈ es, noNewlineStr e.2 = true) :
    parseYAMLStr (serializeYAML (.obj es) 0) = .obj []
    ∧ (es ≠ [] →
        deepEqual (parseYAMLStr (serializeYAML (.obj es) 0)) (.obj es) = false) := by
  have hperm : (sortEntries es).Perm es :=
    List.perm_insertionSort (fun e1 e2 : Str × JSValue => strLe e1.1 e2.1 = true) es
  have hmain : parseYAMLStr (serializeYAML (.obj es) 0) = .obj [] := by
    by_cases hnil : es = []
    · subst hnil
      decide
    · have hser := serializeYAML_obj_scalar es hs hk hv
      have hLne : (sortEntries es).map (scalarEntryLine 0) ≠ [] := by
        intro hcontra
        apply hnil
        have h1 : (sortEntries es).length = 0 := by
          have := congrArg List.length hcontra
          simpa using this
        have h2 : es.length = 0 := by rw [← hperm.length_eq]; exact h1
        exact List.length_eq_zero.1 h2
      have hlinesNoNl : ∀ l ∈ (sortEntries es).map (scalarEntryLine 0), '\n' ∉ l := by
        intro l hlmem
        obtain ⟨e, hemem, rfl⟩ := List.mem_map.1 hlmem
        have hees : e ∈ es := hperm.subset hemem
        exact scalarEntryLine_no_newline 0 e (hs e hees) (hk e hees) (hv e hees)
      have hlinesHead : ∀ l ∈ (sortEntries es).map (scalarEntryLine 0),
          l.head? = some ' ' := by
        intro l hlmem
        obtain ⟨e, _, rfl⟩ := List.mem_map.1 hlmem
        rfl
      have hcontNe : (joinLines ((sortEntries es).map (scalarEntryLine 0))).isEmpty
          = false := by
        obtain ⟨l0, rest, hL⟩ : ∃ l0 rest,
            (sortEntries es).map (scalarEntryLine 0) = l0 :: rest := by
          rcases hc : (sortEntries es).map (scalarEntryLine 0) with _ | ⟨l0, rest⟩
          · exact absurd hc hLne
          · exact ⟨l0, rest, rfl⟩
        have hh : l0.head? = some ' ' := hlinesHead l0 (hL ▸ List.mem_cons_self l0 rest)
        obtain ⟨t0, hl0⟩ : ∃ t0, l0 = ' ' :: t0 := by
          rcases hc : l0 with _ | ⟨c, t0⟩
          · rw [hc] at hh; simp at hh
          · rw [hc] at hh
            simp only [List.head?_cons, Option.some.injEq] at hh
            exact ⟨t0, by rw [hh]⟩
        rw [hL, hl0]
        cases rest with
        | nil => rfl
        | cons l1 rest1 => rfl
      rw [hser]
      unfold parseYAMLStr parseYAML
      rw [if_neg (by simp [hcontNe])]
      show (parseYAMLLinesF
          ((jsSplit '\n' (joinLines ((sortEntries es).map (scalarEntryLine 0)))).length + 1)
          (jsSplit '\n' (joinLines ((sortEntries es).map (scalarEntryLine 0)))) 0 0
          false).data = .obj []
      rw [jsSplit_joinLines _ hLne hlinesNoNl]
      unfold parseYAMLLinesF
      rw [parseLoopF_all_indented _ hlinesHead]
      rfl
  refine ⟨hmain, fun hne => ?_⟩
  rw [hmain]
  cases es with
  | nil => exact absurd rfl hne
  | cons e0 es' => rfl

/-- Witness for C3's amended theorem at the concrete mapping `{a: 1}`:
its serialization re-parses to the empty mapping and fails the deep
equality of the round trip. -/
theorem roundtrip_root_mapping_collapses_witness :
    parseYAMLStr (serializeYAML (.obj [(("a").data, .num 1)]) 0) = .obj []
    ∧ deepEqual (parseYAMLStr (serializeYAML (.obj [(("a").data, .num 1)]) 0))
        (.obj [(("a").data, .num 1)]) = false :=
  ⟨(roundtrip_root_mapping_collapses [(("a").data, .num 1)]
      (by decide) (by decide) (by decide)).1,
   (roundtrip_root_mapping_collapses [(("a").data, .num 1)]
      (by decide) (by decide) (by decide)).2 (by decide)⟩
